import Mathlib

/-!
Verification of the circular-buffer queue/deque core of the
go-interview-toolkit collections library.

The Go source (package `collections`) implements three array-backed
containers: `Deque[T]`, `Queue[T]` (both circular buffers with fields
`items`, `front`, `rear`, `size` and doubling/halving resize) and
`Stack[T]` (a plain growable slice).  This file gives a shallow
embedding of those types and their public operations, translated
function by function from the source, and proves or refutes the frozen
claims about them.

Modelling conventions:
* Go slices become `List α`; `make([]T, n)` becomes
  `List.replicate n default` (the `Inhabited` default stands for the Go
  zero value), element writes become `List.set`, reads become
  `List.getD _ default`.
* All index/size fields are machine `int` in Go but provably remain
  non-negative and below capacity along every reachable path, so they
  are embedded as `Nat`.  Go expressions of the shape
  `(x - k + cap) % cap` (whose intermediate value is non-negative
  whenever `x < cap` and `k ≤ cap`) are written `(x + cap - k) % cap`
  in `Nat`, which agrees with the truncated Go `%` on those inputs.
  Parameters that genuinely come from the caller as possibly negative
  ints (requested capacities, rotation amounts, bulk counts, logical
  indices) are kept as `Int`, and the truncated Go `%` on them is
  `Int.tmod`.
* A Go `(T, error)` return becomes `α × Option String` (the `α`
  component is the Go zero value on error, exactly as in the source);
  a Go `([]T, error)` return becomes `Except String (List α)`.
  Mutating methods additionally return the updated receiver.
-/

namespace GoToolkit

variable {α : Type}

/-! ### Deque (source: collections/deque.go) -/

/-- Go constant `DequeInitialCapacity = 4`. -/
def DequeInitialCapacity : Nat := 4

/-- Go constant `DequeShrinkFactor = 4`. -/
def DequeShrinkFactor : Nat := 4

/-- Go constant `DequeGrowthFactor = 2`. -/
def DequeGrowthFactor : Nat := 2

/-- The `Deque[T]` struct: circular buffer `items`, index `front` of the
first element, index `rear` where the next back element is inserted,
and element count `size`.  Capacity is `items.length`. -/
structure Deque (α : Type) where
  items : List α
  front : Nat
  rear : Nat
  size : Nat

/-- `NewDeque[T]()`. -/
def NewDeque (α : Type) [Inhabited α] : Deque α :=
  { items := List.replicate DequeInitialCapacity default
    front := 0
    rear := 0
    size := 0 }

/-- `NewDequeWithCapacity[T](capacity int)`: a non-positive request
falls back to the default capacity 4, otherwise the request is used
as is. -/
def NewDequeWithCapacity (α : Type) [Inhabited α] (capacity : Int) : Deque α :=
  let capacity := if capacity < 1 then (DequeInitialCapacity : Int) else capacity
  { items := List.replicate capacity.toNat default
    front := 0
    rear := 0
    size := 0 }

/-- `FromSliceDeque[T](slice []T)`: capacity is `len(slice)` bumped up
to at least 4; the slice is copied to the start of the buffer and
`rear = size = len(slice)` (note: `rear` is left at `len(slice)` even
when the buffer is exactly full, i.e. it is not reduced mod capacity). -/
def FromSliceDeque [Inhabited α] (slice : List α) : Deque α :=
  let capacity := if slice.length < DequeInitialCapacity then DequeInitialCapacity else slice.length
  { items := slice ++ List.replicate (capacity - slice.length) default
    front := 0
    rear := slice.length
    size := slice.length }

/-- The `newCapacity` local of `(dq *Deque[T]) resize()`: double when
full, halve otherwise. -/
def Deque.newCapacity (dq : Deque α) : Nat :=
  if dq.size = dq.items.length then dq.items.length * DequeGrowthFactor
  else dq.items.length / DequeGrowthFactor

/-- Private `(dq *Deque[T]) resize()`: doubles the capacity when the
buffer is full, otherwise halves it; copies the `size` elements in
logical order to the start of the new buffer and resets
`front = 0`, `rear = size`. -/
def Deque.resize [Inhabited α] (dq : Deque α) : Deque α :=
  let cap := dq.items.length
  let newItems := (List.range dq.size).foldl
    (fun acc i => acc.set i (dq.items.getD ((dq.front + i) % cap) default))
    (List.replicate dq.newCapacity default)
  { items := newItems, front := 0, rear := dq.size, size := dq.size }

/-- `PushFront`: grow if full, then move `front` back one slot with
wraparound and write there. -/
def Deque.PushFront [Inhabited α] (dq : Deque α) (value : α) : Deque α :=
  let dq := if dq.size = dq.items.length then dq.resize else dq
  let cap := dq.items.length
  let front := (dq.front + cap - 1) % cap
  { dq with items := dq.items.set front value, front := front, size := dq.size + 1 }

/-- `PushBack`: grow if full, then write at `rear` and advance `rear`
with wraparound. -/
def Deque.PushBack [Inhabited α] (dq : Deque α) (value : α) : Deque α :=
  let dq := if dq.size = dq.items.length then dq.resize else dq
  let cap := dq.items.length
  { dq with items := dq.items.set dq.rear value
            rear := (dq.rear + 1) % cap
            size := dq.size + 1 }

/-- `PopFront`: error on empty, else read `items[front]`, clear the
slot, advance `front`, decrement `size`, then run the shrink check
(shrink when `size == cap/4` and `cap > 4` and the deque is non-empty). -/
def Deque.PopFront [Inhabited α] (dq : Deque α) : (α × Option String) × Deque α :=
  if dq.size = 0 then
    ((default, some "deque is empty"), dq)
  else
    let cap := dq.items.length
    let value := dq.items.getD dq.front default
    let dq1 : Deque α :=
      { dq with items := dq.items.set dq.front default
                front := (dq.front + 1) % cap
                size := dq.size - 1 }
    let dq2 := if 0 < dq1.size ∧ dq1.size = cap / DequeShrinkFactor ∧ DequeShrinkFactor < cap
      then dq1.resize else dq1
    ((value, none), dq2)

/-- `PopBack`: error on empty, else move `rear` back one slot with
wraparound, read and clear that slot, decrement `size`, then run the
shrink check. -/
def Deque.PopBack [Inhabited α] (dq : Deque α) : (α × Option String) × Deque α :=
  if dq.size = 0 then
    ((default, some "deque is empty"), dq)
  else
    let cap := dq.items.length
    let rear := (dq.rear + cap - 1) % cap
    let value := dq.items.getD rear default
    let dq1 : Deque α :=
      { dq with items := dq.items.set rear default
                rear := rear
                size := dq.size - 1 }
    let dq2 := if 0 < dq1.size ∧ dq1.size = cap / DequeShrinkFactor ∧ DequeShrinkFactor < cap
      then dq1.resize else dq1
    ((value, none), dq2)

/-- `Front`: the element at index `front`, or an error when empty. -/
def Deque.Front [Inhabited α] (dq : Deque α) : α × Option String :=
  if dq.size = 0 then (default, some "deque is empty")
  else (dq.items.getD dq.front default, none)

/-- `Back`: the element one slot before `rear` (with wraparound), or an
error when empty. -/
def Deque.Back [Inhabited α] (dq : Deque α) : α × Option String :=
  if dq.size = 0 then (default, some "deque is empty")
  else
    let cap := dq.items.length
    let backIndex := (dq.rear + cap - 1) % cap
    (dq.items.getD backIndex default, none)

/-- `Size`. -/
def Deque.Size (dq : Deque α) : Nat := dq.size

/-- `IsEmpty`. -/
def Deque.IsEmpty (dq : Deque α) : Bool := dq.size = 0

/-- `Clear`: zero the occupied arc and reset `front`, `rear`, `size`. -/
def Deque.Clear [Inhabited α] (dq : Deque α) : Deque α :=
  let cap := dq.items.length
  let cleared := (List.range dq.size).foldl
    (fun acc i => acc.set ((dq.front + i) % cap) default) dq.items
  { items := cleared, front := 0, rear := 0, size := 0 }

/-- `ToSlice`: the logical front-to-back sequence
`[items[(front+i) mod cap] | i < size]`. -/
def Deque.ToSlice [Inhabited α] (dq : Deque α) : List α :=
  (List.range dq.size).map (fun i => dq.items.getD ((dq.front + i) % dq.items.length) default)

/-- `Clone`: a fresh deque of the same capacity, filled by pushing the
logical elements back to front-to-back order. -/
def Deque.Clone [Inhabited α] (dq : Deque α) : Deque α :=
  (List.range dq.size).foldl
    (fun clone i => clone.PushBack (dq.items.getD ((dq.front + i) % dq.items.length) default))
    (NewDequeWithCapacity α (dq.items.length : Int))

/-- `Capacity`: `len(dq.items)`. -/
def Deque.Capacity (dq : Deque α) : Nat := dq.items.length

/-- `Get(index)`: logical read with bounds check `0 <= index < size`. -/
def Deque.Get [Inhabited α] (dq : Deque α) (index : Int) : α × Option String :=
  if index < 0 ∨ (dq.size : Int) ≤ index then
    (default, some ("index " ++ toString index ++ " out of bounds for deque of size " ++ toString dq.size))
  else
    (dq.items.getD ((dq.front + index.toNat) % dq.items.length) default, none)

/-- `Set(index, value)`: logical write with the same bounds check. -/
def Deque.Set (dq : Deque α) (index : Int) (value : α) : Option String × Deque α :=
  if index < 0 ∨ (dq.size : Int) ≤ index then
    (some ("index " ++ toString index ++ " out of bounds for deque of size " ++ toString dq.size), dq)
  else
    (none, { dq with items := dq.items.set ((dq.front + index.toNat) % dq.items.length) value })

/-- `Reverse`: swap symmetric pairs around the logical centre in place
(the loop bound `size/2` is written `size/DequeGrowthFactor` in the
source). -/
def Deque.Reverse [Inhabited α] (dq : Deque α) : Deque α :=
  if dq.size ≤ 1 then dq
  else
    let cap := dq.items.length
    let items := (List.range (dq.size / DequeGrowthFactor)).foldl
      (fun acc i =>
        let frontIndex := (dq.front + i) % cap
        let backIndex := (dq.front + dq.size - 1 - i) % cap
        let tmp := acc.getD frontIndex default
        (acc.set frontIndex (acc.getD backIndex default)).set backIndex tmp)
      dq.items
    { dq with items := items }

/-- `Rotate(n)`: no-op when `size <= 1`; otherwise normalize
`n mod size` into `[0, size)` (the truncated Go `%` is `Int.tmod`) and
move `front` back by that amount with wraparound.  The source touches
only `front`: `rear` is left unchanged. -/
def Deque.Rotate (dq : Deque α) (n : Int) : Deque α :=
  if dq.size ≤ 1 then dq
  else
    let n := n.tmod (dq.size : Int)
    let n := if n < 0 then n + (dq.size : Int) else n
    let cap := dq.items.length
    { dq with front := (dq.front + cap - n.toNat) % cap }

/-- `PeekFront` (alias for `Front`). -/
def Deque.PeekFront [Inhabited α] (dq : Deque α) : α × Option String := dq.Front

/-- `PeekBack` (alias for `Back`). -/
def Deque.PeekBack [Inhabited α] (dq : Deque α) : α × Option String := dq.Back

/-- `Enqueue` (alias for `PushBack`). -/
def Deque.Enqueue [Inhabited α] (dq : Deque α) (value : α) : Deque α := dq.PushBack value

/-- `Dequeue` (alias for `PopFront`). -/
def Deque.Dequeue [Inhabited α] (dq : Deque α) : (α × Option String) × Deque α := dq.PopFront

/-- `Push` (alias for `PushBack`). -/
def Deque.Push [Inhabited α] (dq : Deque α) (value : α) : Deque α := dq.PushBack value

/-- `Pop` (alias for `PopBack`). -/
def Deque.Pop [Inhabited α] (dq : Deque α) : (α × Option String) × Deque α := dq.PopBack

/-! ### Queue (source: collections/queue.go) -/

/-- Go constant `DefaultInitialCapacity = 4`. -/
def DefaultInitialCapacity : Nat := 4

/-- Go constant `ShrinkFactor = 4`. -/
def ShrinkFactor : Nat := 4

/-- Go constant `GrowthFactor = 2`. -/
def GrowthFactor : Nat := 2

/-- The `Queue[T]` struct: same circular-buffer representation as
`Deque[T]`. -/
structure Queue (α : Type) where
  items : List α
  front : Nat
  rear : Nat
  size : Nat

/-- `NewQueue[T]()`. -/
def NewQueue (α : Type) [Inhabited α] : Queue α :=
  { items := List.replicate DefaultInitialCapacity default
    front := 0
    rear := 0
    size := 0 }

/-- `NewQueueWithCapacity[T](capacity int)`: a non-positive request
falls back to 4, otherwise the request is used as is. -/
def NewQueueWithCapacity (α : Type) [Inhabited α] (capacity : Int) : Queue α :=
  let capacity := if capacity < 1 then (4 : Int) else capacity
  { items := List.replicate capacity.toNat default
    front := 0
    rear := 0
    size := 0 }

/-- `FromSliceQueue[T](slice []T)`: capacity is `len(slice)` bumped up
to at least 4; `rear = size = len(slice)`. -/
def FromSliceQueue [Inhabited α] (slice : List α) : Queue α :=
  let capacity := if slice.length < DefaultInitialCapacity then DefaultInitialCapacity else slice.length
  { items := slice ++ List.replicate (capacity - slice.length) default
    front := 0
    rear := slice.length
    size := slice.length }

/-- The `newCapacity` local of `(q *Queue[T]) resize()`. -/
def Queue.newCapacity (q : Queue α) : Nat :=
  if q.size = q.items.length then q.items.length * GrowthFactor
  else q.items.length / GrowthFactor

/-- Private `(q *Queue[T]) resize()`: identical to `Deque.resize`. -/
def Queue.resize [Inhabited α] (q : Queue α) : Queue α :=
  let cap := q.items.length
  let newItems := (List.range q.size).foldl
    (fun acc i => acc.set i (q.items.getD ((q.front + i) % cap) default))
    (List.replicate q.newCapacity default)
  { items := newItems, front := 0, rear := q.size, size := q.size }

/-- `Enqueue`: grow if full, write at `rear`, advance `rear`. -/
def Queue.Enqueue [Inhabited α] (q : Queue α) (value : α) : Queue α :=
  let q := if q.size = q.items.length then q.resize else q
  let cap := q.items.length
  { q with items := q.items.set q.rear value
           rear := (q.rear + 1) % cap
           size := q.size + 1 }

/-- `Dequeue`: error on empty, else read and clear `items[front]`,
advance `front`, decrement `size`, then run the shrink check. -/
def Queue.Dequeue [Inhabited α] (q : Queue α) : (α × Option String) × Queue α :=
  if q.size = 0 then
    ((default, some "queue is empty"), q)
  else
    let cap := q.items.length
    let value := q.items.getD q.front default
    let q1 : Queue α :=
      { q with items := q.items.set q.front default
               front := (q.front + 1) % cap
               size := q.size - 1 }
    let q2 := if 0 < q1.size ∧ q1.size = cap / ShrinkFactor ∧ ShrinkFactor < cap
      then q1.resize else q1
    ((value, none), q2)

/-- `Front`: element at index `front`, or an error when empty. -/
def Queue.Front [Inhabited α] (q : Queue α) : α × Option String :=
  if q.size = 0 then (default, some "queue is empty")
  else (q.items.getD q.front default, none)

/-- `Rear`: element one slot before `rear` (with wraparound), or an
error when empty. -/
def Queue.Rear [Inhabited α] (q : Queue α) : α × Option String :=
  if q.size = 0 then (default, some "queue is empty")
  else
    let cap := q.items.length
    let rearIndex := (q.rear + cap - 1) % cap
    (q.items.getD rearIndex default, none)

/-- `Size`. -/
def Queue.Size (q : Queue α) : Nat := q.size

/-- `IsEmpty`. -/
def Queue.IsEmpty (q : Queue α) : Bool := q.size = 0

/-- `Clear`: zero the occupied arc and reset `front`, `rear`, `size`. -/
def Queue.Clear [Inhabited α] (q : Queue α) : Queue α :=
  let cap := q.items.length
  let cleared := (List.range q.size).foldl
    (fun acc i => acc.set ((q.front + i) % cap) default) q.items
  { items := cleared, front := 0, rear := 0, size := 0 }

/-- `ToSlice`: the logical front-to-rear sequence. -/
def Queue.ToSlice [Inhabited α] (q : Queue α) : List α :=
  (List.range q.size).map (fun i => q.items.getD ((q.front + i) % q.items.length) default)

/-- `Clone`: a fresh queue of the same capacity, filled by enqueuing
the logical elements in order. -/
def Queue.Clone [Inhabited α] (q : Queue α) : Queue α :=
  (List.range q.size).foldl
    (fun clone i => clone.Enqueue (q.items.getD ((q.front + i) % q.items.length) default))
    (NewQueueWithCapacity α (q.items.length : Int))

/-- `Capacity`: `len(q.items)`. -/
def Queue.Capacity (q : Queue α) : Nat := q.items.length

/-- `MultiEnqueue(values ...T)`: sequential single-element enqueues. -/
def Queue.MultiEnqueue [Inhabited α] (q : Queue α) (values : List α) : Queue α :=
  values.foldl Queue.Enqueue q

/-- The loop body of `MultiDequeue`: perform `k` single-element
dequeues, collecting the returned values in order. -/
def Queue.dequeueLoop [Inhabited α] (q : Queue α) : Nat → List α × Queue α
  | 0 => ([], q)
  | k + 1 =>
    let r := q.Dequeue
    let rest := Queue.dequeueLoop r.2 k
    (r.1.1 :: rest.1, rest.2)

/-- `MultiDequeue(n int)`: rejects `n < 0` and `n > size` up front
(leaving the queue untouched), returns `[]` for `n = 0`, and otherwise
performs exactly `n` single-element dequeues. -/
def Queue.MultiDequeue [Inhabited α] (q : Queue α) (n : Int) : Except String (List α) × Queue α :=
  if n < 0 then
    (.error ("cannot dequeue negative number of elements: " ++ toString n), q)
  else if (q.size : Int) < n then
    (.error ("cannot dequeue " ++ toString n ++ " elements from queue of size " ++ toString q.size), q)
  else if n = 0 then
    (.ok [], q)
  else
    let r := q.dequeueLoop n.toNat
    (.ok r.1, r.2)

/-- `PeekN(n int)`: the same bounds checks as `MultiDequeue`, reading
the first `n` logical elements without mutating. -/
def Queue.PeekN [Inhabited α] (q : Queue α) (n : Int) : Except String (List α) :=
  if n < 0 then
    .error ("cannot peek negative number of elements: " ++ toString n)
  else if (q.size : Int) < n then
    .error ("cannot peek " ++ toString n ++ " elements from queue of size " ++ toString q.size)
  else if n = 0 then
    .ok []
  else
    .ok ((List.range n.toNat).map (fun i => q.items.getD ((q.front + i) % q.items.length) default))

/-- `Reverse`: no-op when `size <= 1`; otherwise take the ordered
snapshot, reverse it (the source reverses with a two-pointer swap
loop), clear, and re-enqueue every element. -/
def Queue.Reverse [Inhabited α] (q : Queue α) : Queue α :=
  if q.size ≤ 1 then q
  else
    let slice := q.ToSlice.reverse
    slice.foldl Queue.Enqueue q.Clear

/-- `DrainTo`: return the ordered snapshot and clear the queue. -/
def Queue.DrainTo [Inhabited α] (q : Queue α) : List α × Queue α :=
  (q.ToSlice, q.Clear)

/-- `Peek` (alias for `Front`). -/
def Queue.Peek [Inhabited α] (q : Queue α) : α × Option String := q.Front

/-! ### Stack (source: collections/stack.go) -/

/-- The `Stack[T]` struct: a plain growable slice, top at the end. -/
structure Stack (α : Type) where
  items : List α

/-- `NewStack[T]()`. -/
def NewStack (α : Type) : Stack α := { items := [] }

/-- `FromSliceStack[T](slice []T)`: the first slice element becomes the
bottom of the stack. -/
def FromSliceStack (slice : List α) : Stack α := { items := slice }

/-- `Push`. -/
def Stack.Push (s : Stack α) (value : α) : Stack α := { items := s.items ++ [value] }

/-- `Pop`: error on empty, else remove and return the last element. -/
def Stack.Pop [Inhabited α] (s : Stack α) : (α × Option String) × Stack α :=
  if s.items.length = 0 then
    ((default, some "stack is empty"), s)
  else
    ((s.items.getD (s.items.length - 1) default, none),
      { items := s.items.take (s.items.length - 1) })

/-- `Peek`: the last element, or an error when empty. -/
def Stack.Peek [Inhabited α] (s : Stack α) : α × Option String :=
  if s.items.length = 0 then (default, some "stack is empty")
  else (s.items.getD (s.items.length - 1) default, none)

/-- `Size`. -/
def Stack.Size (s : Stack α) : Nat := s.items.length

/-- `MultiPop(n int)`: rejects `n < 0` and `n > len(items)` up front
(leaving the stack untouched); otherwise returns the top `n` elements
top-first (`result[i] = items[start+n-1-i]`) and truncates the slice. -/
def Stack.MultiPop [Inhabited α] (s : Stack α) (n : Int) : Except String (List α) × Stack α :=
  if n < 0 then
    (.error ("cannot pop negative number of elements: " ++ toString n), s)
  else if (s.items.length : Int) < n then
    (.error ("cannot pop " ++ toString n ++ " elements from stack of size " ++ toString s.items.length), s)
  else if n = 0 then
    (.ok [], s)
  else
    let start := s.items.length - n.toNat
    ((.ok ((List.range n.toNat).map
        (fun i => s.items.getD (start + n.toNat - 1 - i) default))),
      { items := s.items.take start })

/-! ### Operation alphabets, for invariants over arbitrary call sequences

One constructor per public method of the Go type.  Value-returning
accessors (`Front`, `Get`, `ToSlice`, `Clone`, ...) take the receiver
by pointer in Go but never write to it, and their embeddings above
return no state; running such an operation leaves the state unchanged. -/

inductive DequeOp (α : Type) where
  | pushFront (v : α)
  | pushBack (v : α)
  | popFront
  | popBack
  | clear
  | reverse
  | rotate (n : Int)
  | set (i : Int) (v : α)
  | get (i : Int)
  | front
  | back
  | peekFront
  | peekBack
  | size
  | isEmpty
  | toSlice
  | clone
  | capacity
  | enqueue (v : α)
  | dequeue
  | push (v : α)
  | pop

/-- State transition of one public deque operation. -/
def applyDequeOp [Inhabited α] (dq : Deque α) : DequeOp α → Deque α
  | .pushFront v => dq.PushFront v
  | .pushBack v => dq.PushBack v
  | .popFront => dq.PopFront.2
  | .popBack => dq.PopBack.2
  | .clear => dq.Clear
  | .reverse => dq.Reverse
  | .rotate n => dq.Rotate n
  | .set i v => (dq.Set i v).2
  | .get _ => dq
  | .front => dq
  | .back => dq
  | .peekFront => dq
  | .peekBack => dq
  | .size => dq
  | .isEmpty => dq
  | .toSlice => dq
  | .clone => dq
  | .capacity => dq
  | .enqueue v => dq.Enqueue v
  | .dequeue => dq.Dequeue.2
  | .push v => dq.Push v
  | .pop => dq.Pop.2

/-- Run a whole sequence of public deque operations. -/
def runDequeOps [Inhabited α] (dq : Deque α) (ops : List (DequeOp α)) : Deque α :=
  ops.foldl applyDequeOp dq

inductive QueueOp (α : Type) where
  | enqueue (v : α)
  | dequeue
  | clear
  | reverse
  | multiEnqueue (vs : List α)
  | multiDequeue (n : Int)
  | drainTo
  | front
  | rear
  | peek
  | peekN (n : Int)
  | size
  | isEmpty
  | toSlice
  | clone
  | capacity

/-- State transition of one public queue operation. -/
def applyQueueOp [Inhabited α] (q : Queue α) : QueueOp α → Queue α
  | .enqueue v => q.Enqueue v
  | .dequeue => q.Dequeue.2
  | .clear => q.Clear
  | .reverse => q.Reverse
  | .multiEnqueue vs => q.MultiEnqueue vs
  | .multiDequeue n => (q.MultiDequeue n).2
  | .drainTo => q.DrainTo.2
  | .front => q
  | .rear => q
  | .peek => q
  | .peekN _ => q
  | .size => q
  | .isEmpty => q
  | .toSlice => q
  | .clone => q
  | .capacity => q

/-- Run a whole sequence of public queue operations. -/
def runQueueOps [Inhabited α] (q : Queue α) (ops : List (QueueOp α)) : Queue α :=
  ops.foldl applyQueueOp q

/-! ### Structural invariants -/

/-- Well-formedness of a deque state: the element count never exceeds
the capacity, the capacity is positive, and `front` is a valid index. -/
def DqInv (dq : Deque α) : Prop :=
  dq.size ≤ dq.items.length ∧ 1 ≤ dq.items.length ∧ dq.front < dq.items.length

instance (dq : Deque α) : Decidable (DqInv dq) := by
  unfold DqInv; infer_instance

/-- Well-formedness of a queue state. -/
def QInv (q : Queue α) : Prop :=
  q.size ≤ q.items.length ∧ 1 ≤ q.items.length ∧ q.front < q.items.length

instance (q : Queue α) : Decidable (QInv q) := by
  unfold QInv; infer_instance

/-- A capacity reachable from the default capacity 4 by doubling and
halving only, i.e. a member of 4, 8, 16, 32, ... -/
def ReachableFromDefault (c : Nat) : Prop :=
  ∃ k : Nat, c = 4 * 2 ^ k

/-! ### Concrete states used to exercise the rotation code paths -/

/-- `NewDeque[int]()` followed by `PushBack 1, 2, 3, 4`: the buffer is
exactly full (`front = 0`, `rear` wrapped back to 0, capacity 4). -/
def dqFour : Deque Int :=
  ((((NewDeque Int).PushBack 1).PushBack 2).PushBack 3).PushBack 4

/-- `NewDeque[int]()` followed by `PushBack 1, ..., 5`: the fifth push
grows the buffer to capacity 8, leaving three zero-valued free slots. -/
def dqFive : Deque Int :=
  (((((NewDeque Int).PushBack 1).PushBack 2).PushBack 3).PushBack 4).PushBack 5

/-- A quarter-full capacity-8 queue state (front at 0, two live
elements): exercises the shrink path of `resize`. -/
def qShrink : Queue Int :=
  { items := [9, 9, 0, 0, 0, 0, 0, 0], front := 0, rear := 2, size := 2 }

/-! ## Generic list and arithmetic lemmas -/

/-- A fold whose step preserves list length preserves list length. -/
theorem foldl_length_invariant {β : Type} (g : List α → β → List α)
    (h : ∀ a b, (g a b).length = a.length) :
    ∀ (xs : List β) (acc : List α), (xs.foldl g acc).length = acc.length
  | [], _ => rfl
  | x :: xs, acc => by
    rw [List.foldl_cons, foldl_length_invariant g h xs (g acc x), h]

theorem getD_set_ne (l : List α) (i j : Nat) (v d : α) (h : i ≠ j) :
    (l.set i v).getD j d = l.getD j d := by
  simp [List.getD_eq_getElem?_getD, List.getElem?_set_ne h]

theorem getD_map_range {β : Type} (f : Nat → β) (n i : Nat) (d : β) (h : i < n) :
    ((List.range n).map f).getD i d = f i := by
  simp [List.getD_eq_getElem?_getD, List.getElem?_map, List.getElem?_range h]

/-- Reading the first `n` positions of a list with `getD` produces
`take n`. -/
theorem map_range_getD_take (xs : List α) (d : α) (n : Nat) (h : n ≤ xs.length) :
    (List.range n).map (fun i => xs.getD i d) = xs.take n := by
  apply List.ext_getElem
  · simp [Nat.min_eq_left h]
  · intro i h1 h2
    simp only [List.getElem_map, List.getElem_range, List.getElem_take]
    have hi : i < xs.length := lt_of_lt_of_le (by simpa using h1) h
    exact List.getD_eq_getElem xs d hi

/-- Reading out a whole list with `getD` reproduces it. -/
theorem map_range_getD (xs : List α) (d : α) :
    (List.range xs.length).map (fun i => xs.getD i d) = xs := by
  rw [map_range_getD_take xs d xs.length le_rfl, List.take_length]

/-- The copy loop of `resize`: writing `f 0, ..., f (n-1)` over the
first `n` slots of a fresh buffer of capacity `cap ≥ n`. -/
theorem copyLoop_eq (f : Nat → α) (d : α) :
    ∀ (n cap : Nat), n ≤ cap →
      (List.range n).foldl (fun acc i => acc.set i (f i)) (List.replicate cap d)
        = (List.range n).map f ++ List.replicate (cap - n) d
  | 0, cap, _ => by simp
  | n + 1, cap, h => by
    have hn : n ≤ cap := Nat.le_of_succ_le h
    rw [List.range_succ, List.foldl_append, copyLoop_eq f d n cap hn]
    simp only [List.foldl_cons, List.foldl_nil, List.map_append, List.map_cons, List.map_nil]
    rw [List.set_append]
    have hlen : (List.map f (List.range n)).length = n := by simp
    rw [hlen, if_neg (lt_irrefl n), Nat.sub_self]
    have hrep : cap - n = (cap - (n + 1)) + 1 := by omega
    rw [hrep, List.replicate_succ]
    simp [List.append_assoc]

/-- Advancing a valid index `front < cap` by a step `0 < k < cap`
around the ring never returns to `front`. -/
theorem add_mod_ne_self (front k cap : Nat) (hf : front < cap) (h0 : 0 < k) (hk : k < cap) :
    (front + k) % cap ≠ front := by
  intro h
  have hcap : 0 < cap := lt_of_le_of_lt (Nat.zero_le _) hf
  have hdm := Nat.div_add_mod (front + k) cap
  have hdiv : (front + k) / cap < 2 := (Nat.div_lt_iff_lt_mul hcap).mpr (by omega)
  rw [h] at hdm
  generalize hq : (front + k) / cap = qv at hdm hdiv
  have h2 : qv = 0 ∨ qv = 1 := by omega
  rcases h2 with h2 | h2 <;> rw [h2] at hdm <;> omega

/-- Doubling keeps a capacity in `{4, 8, 16, ...}`. -/
theorem reachable_double {c : Nat} (h : ReachableFromDefault c) :
    ReachableFromDefault (c * 2) := by
  obtain ⟨k, rfl⟩ := h
  exact ⟨k + 1, by ring⟩

/-- Halving a capacity `> 4` keeps it in `{4, 8, 16, ...}`. -/
theorem reachable_half {c : Nat} (h : ReachableFromDefault c) (hc : 4 < c) :
    ReachableFromDefault (c / 2) := by
  obtain ⟨k, rfl⟩ := h
  match k with
  | 0 => simp at hc
  | k + 1 =>
    refine ⟨k, ?_⟩
    have : 4 * 2 ^ (k + 1) = (4 * 2 ^ k) * 2 := by ring
    rw [this, Nat.mul_div_cancel _ (by norm_num)]

/-! ## Deque lemmas -/

theorem Deque.toSlice_length [Inhabited α] (dq : Deque α) :
    dq.ToSlice.length = dq.size := by
  simp [Deque.ToSlice]

theorem Deque.newCapacity_grow (dq : Deque α) (h : dq.size = dq.items.length) :
    dq.newCapacity = dq.items.length * 2 := by
  simp [Deque.newCapacity, h, DequeGrowthFactor]

theorem Deque.newCapacity_shrink (dq : Deque α) (h : dq.size ≠ dq.items.length) :
    dq.newCapacity = dq.items.length / 2 := by
  simp [Deque.newCapacity, h, DequeGrowthFactor]

theorem Deque.resize_items [Inhabited α] (dq : Deque α) (h : dq.size ≤ dq.newCapacity) :
    dq.resize.items = dq.ToSlice ++ List.replicate (dq.newCapacity - dq.size) default := by
  simp only [Deque.resize, Deque.ToSlice]
  exact copyLoop_eq _ default dq.size dq.newCapacity h

theorem Deque.resize_length [Inhabited α] (dq : Deque α) (h : dq.size ≤ dq.newCapacity) :
    dq.resize.items.length = dq.newCapacity := by
  rw [Deque.resize_items dq h]
  simp only [List.length_append, List.length_replicate, Deque.toSlice_length]
  omega

theorem Deque.toSlice_resize [Inhabited α] (dq : Deque α) (h : dq.size ≤ dq.newCapacity) :
    dq.resize.ToSlice = dq.ToSlice := by
  have hit := Deque.resize_items dq h
  have hL := Deque.resize_length dq h
  apply List.ext_getElem
  · simp only [Deque.toSlice_length]
    rfl
  · intro i h1 h2
    have hi : i < dq.size := by simpa only [Deque.toSlice_length] using h2
    simp only [Deque.ToSlice, List.getElem_map, List.getElem_range]
    rw [show dq.resize.front = 0 from rfl, hL, hit]
    rw [Nat.zero_add, Nat.mod_eq_of_lt (lt_of_lt_of_le hi h)]
    rw [List.getD_append _ _ _ _ (by simpa only [Deque.toSlice_length] using hi)]
    exact getD_map_range _ _ _ _ hi

theorem Deque.resize_inv [Inhabited α] (dq : Deque α)
    (h : dq.size ≤ dq.newCapacity) (h1 : 1 ≤ dq.newCapacity) :
    DqInv dq.resize := by
  have hL := Deque.resize_length dq h
  refine ⟨?_, ?_, ?_⟩ <;>
    simp only [show dq.resize.size = dq.size from rfl,
      show dq.resize.front = 0 from rfl, hL] <;> omega

theorem Deque.grow_inv [Inhabited α] (dq : Deque α) (h : DqInv dq) :
    DqInv (if dq.size = dq.items.length then dq.resize else dq)
      ∧ (if dq.size = dq.items.length then dq.resize else dq).size
          < (if dq.size = dq.items.length then dq.resize else dq).items.length
      ∧ (if dq.size = dq.items.length then dq.resize else dq).size = dq.size := by
  obtain ⟨h1, h2, h3⟩ := h
  by_cases he : dq.size = dq.items.length
  · rw [if_pos he]
    have hg := Deque.newCapacity_grow dq he
    have hle : dq.size ≤ dq.newCapacity := by omega
    have hL := Deque.resize_length dq hle
    refine ⟨Deque.resize_inv dq hle (by omega), ?_, rfl⟩
    simp only [show dq.resize.size = dq.size from rfl, hL]
    omega
  · rw [if_neg he]
    exact ⟨⟨h1, h2, h3⟩, by omega, rfl⟩

theorem Deque.pushBack_inv [Inhabited α] (dq : Deque α) (h : DqInv dq) (v : α) :
    DqInv (dq.PushBack v) := by
  obtain ⟨⟨g1, g2, g3⟩, hlt, -⟩ := Deque.grow_inv dq h
  simp only [Deque.PushBack]
  refine ⟨?_, ?_, ?_⟩ <;> dsimp only <;> simp only [List.length_set] <;> omega

theorem Deque.pushFront_inv [Inhabited α] (dq : Deque α) (h : DqInv dq) (v : α) :
    DqInv (dq.PushFront v) := by
  obtain ⟨⟨g1, g2, g3⟩, hlt, -⟩ := Deque.grow_inv dq h
  simp only [Deque.PushFront]
  refine ⟨?_, ?_, ?_⟩ <;> dsimp only <;> simp only [List.length_set] <;>
    first
      | omega
      | exact Nat.mod_lt _ (by omega)

/-- The shrink check shared by both pop paths: if the guard holds the
buffer is resized, and well-formedness survives either way. -/
theorem Deque.shrinkCheck_inv [Inhabited α] (d1 : Deque α) (cond : Prop) [Decidable cond]
    (hcond : cond →
      0 < d1.size ∧ d1.size = d1.items.length / DequeShrinkFactor
        ∧ DequeShrinkFactor < d1.items.length)
    (hinv : DqInv d1) :
    DqInv (if cond then d1.resize else d1) := by
  split
  · next hc =>
    obtain ⟨hc1, hc2, hc3⟩ := hcond hc
    simp only [DequeShrinkFactor] at hc2 hc3
    have hlt : d1.items.length / 4 < d1.items.length :=
      Nat.div_lt_self (by omega) (by norm_num)
    have hne : d1.size ≠ d1.items.length := by omega
    have hnc := Deque.newCapacity_shrink d1 hne
    have hd2 : d1.items.length / 4 ≤ d1.items.length / 2 :=
      Nat.div_le_div_left (by norm_num) (by norm_num)
    have hd3 : 2 ≤ d1.items.length / 2 :=
      (Nat.le_div_iff_mul_le (by norm_num)).mpr (by omega)
    exact Deque.resize_inv d1 (by omega) (by omega)
  · exact hinv

theorem Deque.popFront_inv [Inhabited α] (dq : Deque α) (h : DqInv dq) :
    DqInv dq.PopFront.2 := by
  obtain ⟨h1, h2, h3⟩ := h
  by_cases hz : dq.size = 0
  · simp only [Deque.PopFront, if_pos hz]
    exact ⟨h1, h2, h3⟩
  · simp only [Deque.PopFront, if_neg hz]
    dsimp only
    apply Deque.shrinkCheck_inv
    · intro hc
      simpa only [List.length_set] using hc
    · refine ⟨?_, ?_, ?_⟩ <;> dsimp only <;> simp only [List.length_set] <;>
        first
          | omega
          | exact Nat.mod_lt _ (by omega)

theorem Deque.popBack_inv [Inhabited α] (dq : Deque α) (h : DqInv dq) :
    DqInv dq.PopBack.2 := by
  obtain ⟨h1, h2, h3⟩ := h
  by_cases hz : dq.size = 0
  · simp only [Deque.PopBack, if_pos hz]
    exact ⟨h1, h2, h3⟩
  · simp only [Deque.PopBack, if_neg hz]
    dsimp only
    apply Deque.shrinkCheck_inv
    · intro hc
      simpa only [List.length_set] using hc
    · refine ⟨?_, ?_, ?_⟩ <;> dsimp only <;> simp only [List.length_set] <;> omega

theorem Deque.clear_length [Inhabited α] (dq : Deque α) :
    dq.Clear.items.length = dq.items.length := by
  simp only [Deque.Clear]
  exact foldl_length_invariant _ (fun a b => List.length_set a _ _) _ _

theorem Deque.clear_inv [Inhabited α] (dq : Deque α) (h : DqInv dq) :
    DqInv dq.Clear := by
  obtain ⟨h1, h2, h3⟩ := h
  refine ⟨?_, ?_, ?_⟩ <;>
    simp only [show dq.Clear.size = 0 from rfl, show dq.Clear.front = 0 from rfl,
      Deque.clear_length] <;> omega

theorem Deque.reverse_length [Inhabited α] (dq : Deque α) :
    dq.Reverse.items.length = dq.items.length := by
  simp only [Deque.Reverse]
  split
  · rfl
  · exact foldl_length_invariant _
      (fun a b => by simp only [List.length_set]) _ _

theorem Deque.reverse_inv [Inhabited α] (dq : Deque α) (h : DqInv dq) :
    DqInv dq.Reverse := by
  obtain ⟨h1, h2, h3⟩ := h
  have hL := Deque.reverse_length dq
  have hs : dq.Reverse.size = dq.size := by
    simp only [Deque.Reverse]; split <;> rfl
  have hf : dq.Reverse.front = dq.front := by
    simp only [Deque.Reverse]; split <;> rfl
  exact ⟨by omega, by omega, by omega⟩

theorem Deque.rotate_length (dq : Deque α) (n : Int) :
    (dq.Rotate n).items.length = dq.items.length := by
  simp only [Deque.Rotate]
  split <;> rfl

theorem Deque.rotate_inv (dq : Deque α) (h : DqInv dq) (n : Int) :
    DqInv (dq.Rotate n) := by
  obtain ⟨h1, h2, h3⟩ := h
  simp only [Deque.Rotate]
  split
  · exact ⟨h1, h2, h3⟩
  · exact ⟨h1, h2, Nat.mod_lt _ (by omega)⟩

theorem Deque.set_inv (dq : Deque α) (h : DqInv dq) (i : Int) (v : α) :
    DqInv (dq.Set i v).2 := by
  obtain ⟨h1, h2, h3⟩ := h
  simp only [Deque.Set]
  split
  · exact ⟨h1, h2, h3⟩
  · exact ⟨by simp only [List.length_set]; omega,
      by simp only [List.length_set]; omega,
      by simp only [List.length_set]; omega⟩

/-- Every public deque operation preserves well-formedness. -/
theorem applyDequeOp_inv [Inhabited α] (dq : Deque α) (h : DqInv dq) (op : DequeOp α) :
    DqInv (applyDequeOp dq op) := by
  cases op <;>
    simp only [applyDequeOp, Deque.Enqueue, Deque.Dequeue, Deque.Push, Deque.Pop] <;>
    first
      | exact h
      | exact Deque.pushBack_inv dq h _
      | exact Deque.pushFront_inv dq h _
      | exact Deque.popFront_inv dq h
      | exact Deque.popBack_inv dq h
      | exact Deque.clear_inv dq h
      | exact Deque.reverse_inv dq h
      | exact Deque.rotate_inv dq h _
      | exact Deque.set_inv dq h _ _

/-- Well-formedness holds after any sequence of public deque
operations. -/
theorem runDequeOps_inv [Inhabited α] :
    ∀ (ops : List (DequeOp α)) (dq : Deque α), DqInv dq → DqInv (runDequeOps dq ops)
  | [], _, h => h
  | op :: ops, dq, h =>
    runDequeOps_inv ops (applyDequeOp dq op) (applyDequeOp_inv dq h op)

/-! Capacity evolution: every operation leaves the capacity unchanged,
doubles it (grow on full) or halves it (shrink below a capacity larger
than 4), so a capacity in `{4, 8, 16, ...}` stays there. -/

theorem Deque.resize_reach_grow [Inhabited α] (dq : Deque α)
    (he : dq.size = dq.items.length) (hr : ReachableFromDefault dq.items.length) :
    ReachableFromDefault dq.resize.items.length := by
  have hg := Deque.newCapacity_grow dq he
  have hle : dq.size ≤ dq.newCapacity := by omega
  rw [Deque.resize_length dq hle, hg]
  exact reachable_double hr

theorem Deque.shrinkCheck_reach [Inhabited α] (d1 : Deque α) (cond : Prop) [Decidable cond]
    (hcond : cond →
      0 < d1.size ∧ d1.size = d1.items.length / DequeShrinkFactor
        ∧ DequeShrinkFactor < d1.items.length)
    (hr : ReachableFromDefault d1.items.length) :
    ReachableFromDefault (if cond then d1.resize else d1).items.length := by
  split
  · next hc =>
    obtain ⟨hc1, hc2, hc3⟩ := hcond hc
    simp only [DequeShrinkFactor] at hc2 hc3
    have hlt : d1.items.length / 4 < d1.items.length :=
      Nat.div_lt_self (by omega) (by norm_num)
    have hne : d1.size ≠ d1.items.length := by omega
    have hnc := Deque.newCapacity_shrink d1 hne
    have hd2 : d1.items.length / 4 ≤ d1.items.length / 2 :=
      Nat.div_le_div_left (by norm_num) (by norm_num)
    rw [Deque.resize_length d1 (by omega), hnc]
    exact reachable_half hr (by omega)
  · exact hr

theorem Deque.pushBack_reach [Inhabited α] (dq : Deque α)
    (hr : ReachableFromDefault dq.items.length) (v : α) :
    ReachableFromDefault (dq.PushBack v).items.length := by
  simp only [Deque.PushBack]
  by_cases he : dq.size = dq.items.length
  · rw [if_pos he]
    simp only [List.length_set]
    exact Deque.resize_reach_grow dq he hr
  · rw [if_neg he]
    simpa only [List.length_set] using hr

theorem Deque.pushFront_reach [Inhabited α] (dq : Deque α)
    (hr : ReachableFromDefault dq.items.length) (v : α) :
    ReachableFromDefault (dq.PushFront v).items.length := by
  simp only [Deque.PushFront]
  by_cases he : dq.size = dq.items.length
  · rw [if_pos he]
    simp only [List.length_set]
    exact Deque.resize_reach_grow dq he hr
  · rw [if_neg he]
    simpa only [List.length_set] using hr

theorem Deque.popFront_reach [Inhabited α] (dq : Deque α)
    (hr : ReachableFromDefault dq.items.length) :
    ReachableFromDefault dq.PopFront.2.items.length := by
  by_cases hz : dq.size = 0
  · simp only [Deque.PopFront, if_pos hz]
    exact hr
  · simp only [Deque.PopFront, if_neg hz]
    dsimp only
    apply Deque.shrinkCheck_reach
    · intro hc
      simpa only [List.length_set] using hc
    · simpa only [List.length_set] using hr

theorem Deque.popBack_reach [Inhabited α] (dq : Deque α)
    (hr : ReachableFromDefault dq.items.length) :
    ReachableFromDefault dq.PopBack.2.items.length := by
  by_cases hz : dq.size = 0
  · simp only [Deque.PopBack, if_pos hz]
    exact hr
  · simp only [Deque.PopBack, if_neg hz]
    dsimp only
    apply Deque.shrinkCheck_reach
    · intro hc
      simpa only [List.length_set] using hc
    · simpa only [List.length_set] using hr

theorem Deque.set_length (dq : Deque α) (i : Int) (v : α) :
    (dq.Set i v).2.items.length = dq.items.length := by
  simp only [Deque.Set]
  split
  · rfl
  · simp only [List.length_set]

/-- Every public deque operation keeps the capacity in
`{4, 8, 16, ...}` once it is there. -/
theorem applyDequeOp_reach [Inhabited α] (dq : Deque α)
    (hr : ReachableFromDefault dq.items.length) (op : DequeOp α) :
    ReachableFromDefault (applyDequeOp dq op).items.length := by
  cases op <;>
    simp only [applyDequeOp, Deque.Enqueue, Deque.Dequeue, Deque.Push, Deque.Pop] <;>
    first
      | exact hr
      | exact Deque.pushBack_reach dq hr _
      | exact Deque.pushFront_reach dq hr _
      | exact Deque.popFront_reach dq hr
      | exact Deque.popBack_reach dq hr
      | exact (Deque.clear_length dq) ▸ hr
      | exact (Deque.reverse_length dq) ▸ hr
      | exact (Deque.rotate_length dq _) ▸ hr
      | exact (Deque.set_length dq _ _) ▸ hr

/-- The capacity stays in `{4, 8, 16, ...}` along any sequence of
public deque operations. -/
theorem runDequeOps_reach [Inhabited α] :
    ∀ (ops : List (DequeOp α)) (dq : Deque α),
      ReachableFromDefault dq.items.length →
      ReachableFromDefault (runDequeOps dq ops).items.length
  | [], _, hr => hr
  | op :: ops, dq, hr =>
    runDequeOps_reach ops (applyDequeOp dq op) (applyDequeOp_reach dq hr op)

/-! ## Queue lemmas (mirroring the deque lemmas on the duplicated
source) -/

theorem Queue.toSlice_length_q [Inhabited α] (q : Queue α) :
    q.ToSlice.length = q.size := by
  simp [Queue.ToSlice]

theorem Queue.newCapacity_grow_q (q : Queue α) (h : q.size = q.items.length) :
    q.newCapacity = q.items.length * 2 := by
  simp [Queue.newCapacity, h, GrowthFactor]

theorem Queue.newCapacity_shrink_q (q : Queue α) (h : q.size ≠ q.items.length) :
    q.newCapacity = q.items.length / 2 := by
  simp [Queue.newCapacity, h, GrowthFactor]

theorem Queue.resize_items_q [Inhabited α] (q : Queue α) (h : q.size ≤ q.newCapacity) :
    q.resize.items = q.ToSlice ++ List.replicate (q.newCapacity - q.size) default := by
  simp only [Queue.resize, Queue.ToSlice]
  exact copyLoop_eq _ default q.size q.newCapacity h

theorem Queue.resize_length_q [Inhabited α] (q : Queue α) (h : q.size ≤ q.newCapacity) :
    q.resize.items.length = q.newCapacity := by
  rw [Queue.resize_items_q q h]
  simp only [List.length_append, List.length_replicate, Queue.toSlice_length_q]
  omega

theorem Queue.toSlice_resize_q [Inhabited α] (q : Queue α) (h : q.size ≤ q.newCapacity) :
    q.resize.ToSlice = q.ToSlice := by
  have hit := Queue.resize_items_q q h
  have hL := Queue.resize_length_q q h
  apply List.ext_getElem
  · simp only [Queue.toSlice_length_q]
    rfl
  · intro i h1 h2
    have hi : i < q.size := by simpa only [Queue.toSlice_length_q] using h2
    simp only [Queue.ToSlice, List.getElem_map, List.getElem_range]
    rw [show q.resize.front = 0 from rfl, hL, hit]
    rw [Nat.zero_add, Nat.mod_eq_of_lt (lt_of_lt_of_le hi h)]
    rw [List.getD_append _ _ _ _ (by simpa only [Queue.toSlice_length_q] using hi)]
    exact getD_map_range _ _ _ _ hi

theorem Queue.resize_inv_q [Inhabited α] (q : Queue α)
    (h : q.size ≤ q.newCapacity) (h1 : 1 ≤ q.newCapacity) :
    QInv q.resize := by
  have hL := Queue.resize_length_q q h
  refine ⟨?_, ?_, ?_⟩ <;>
    simp only [show q.resize.size = q.size from rfl,
      show q.resize.front = 0 from rfl, hL] <;> omega

theorem Queue.grow_inv_q [Inhabited α] (q : Queue α) (h : QInv q) :
    QInv (if q.size = q.items.length then q.resize else q)
      ∧ (if q.size = q.items.length then q.resize else q).size
          < (if q.size = q.items.length then q.resize else q).items.length
      ∧ (if q.size = q.items.length then q.resize else q).size = q.size := by
  obtain ⟨h1, h2, h3⟩ := h
  by_cases he : q.size = q.items.length
  · rw [if_pos he]
    have hg := Queue.newCapacity_grow_q q he
    have hle : q.size ≤ q.newCapacity := by omega
    have hL := Queue.resize_length_q q hle
    refine ⟨Queue.resize_inv_q q hle (by omega), ?_, rfl⟩
    simp only [show q.resize.size = q.size from rfl, hL]
    omega
  · rw [if_neg he]
    exact ⟨⟨h1, h2, h3⟩, by omega, rfl⟩

theorem Queue.enqueue_inv [Inhabited α] (q : Queue α) (h : QInv q) (v : α) :
    QInv (q.Enqueue v) := by
  obtain ⟨⟨g1, g2, g3⟩, hlt, -⟩ := Queue.grow_inv_q q h
  simp only [Queue.Enqueue]
  refine ⟨?_, ?_, ?_⟩ <;> dsimp only <;> simp only [List.length_set] <;> omega

/-- The shrink check of `Dequeue`. -/
theorem Queue.shrinkCheck_inv_q [Inhabited α] (q1 : Queue α) (cond : Prop) [Decidable cond]
    (hcond : cond →
      0 < q1.size ∧ q1.size = q1.items.length / ShrinkFactor
        ∧ ShrinkFactor < q1.items.length)
    (hinv : QInv q1) :
    QInv (if cond then q1.resize else q1) := by
  split
  · next hc =>
    obtain ⟨hc1, hc2, hc3⟩ := hcond hc
    simp only [ShrinkFactor] at hc2 hc3
    have hlt : q1.items.length / 4 < q1.items.length :=
      Nat.div_lt_self (by omega) (by norm_num)
    have hne : q1.size ≠ q1.items.length := by omega
    have hnc := Queue.newCapacity_shrink_q q1 hne
    have hd2 : q1.items.length / 4 ≤ q1.items.length / 2 :=
      Nat.div_le_div_left (by norm_num) (by norm_num)
    have hd3 : 2 ≤ q1.items.length / 2 :=
      (Nat.le_div_iff_mul_le (by norm_num)).mpr (by omega)
    exact Queue.resize_inv_q q1 (by omega) (by omega)
  · exact hinv

theorem Queue.dequeue_inv [Inhabited α] (q : Queue α) (h : QInv q) :
    QInv q.Dequeue.2 := by
  obtain ⟨h1, h2, h3⟩ := h
  by_cases hz : q.size = 0
  · simp only [Queue.Dequeue, if_pos hz]
    exact ⟨h1, h2, h3⟩
  · simp only [Queue.Dequeue, if_neg hz]
    dsimp only
    apply Queue.shrinkCheck_inv_q
    · intro hc
      simpa only [List.length_set] using hc
    · refine ⟨?_, ?_, ?_⟩ <;> dsimp only <;> simp only [List.length_set] <;>
        first
          | omega
          | exact Nat.mod_lt _ (by omega)

theorem Queue.clear_length_q [Inhabited α] (q : Queue α) :
    q.Clear.items.length = q.items.length := by
  simp only [Queue.Clear]
  exact foldl_length_invariant _ (fun a b => List.length_set a _ _) _ _

theorem Queue.clear_inv_q [Inhabited α] (q : Queue α) (h : QInv q) :
    QInv q.Clear := by
  obtain ⟨h1, h2, h3⟩ := h
  refine ⟨?_, ?_, ?_⟩ <;>
    simp only [show q.Clear.size = 0 from rfl, show q.Clear.front = 0 from rfl,
      Queue.clear_length_q] <;> omega

theorem Queue.foldl_enqueue_inv [Inhabited α] :
    ∀ (l : List α) (q : Queue α), QInv q → QInv (l.foldl Queue.Enqueue q)
  | [], _, h => h
  | v :: l, q, h => Queue.foldl_enqueue_inv l (q.Enqueue v) (Queue.enqueue_inv q h v)

theorem Queue.reverse_inv_q [Inhabited α] (q : Queue α) (h : QInv q) :
    QInv q.Reverse := by
  simp only [Queue.Reverse]
  split
  · exact h
  · exact Queue.foldl_enqueue_inv _ _ (Queue.clear_inv_q q h)

theorem Queue.multiEnqueue_inv [Inhabited α] (q : Queue α) (h : QInv q) (vs : List α) :
    QInv (q.MultiEnqueue vs) :=
  Queue.foldl_enqueue_inv vs q h

theorem Queue.dequeueLoop_inv [Inhabited α] :
    ∀ (k : Nat) (q : Queue α), QInv q → QInv (q.dequeueLoop k).2
  | 0, _, h => h
  | k + 1, q, h =>
    Queue.dequeueLoop_inv k q.Dequeue.2 (Queue.dequeue_inv q h)

theorem Queue.multiDequeue_inv [Inhabited α] (q : Queue α) (h : QInv q) (n : Int) :
    QInv (q.MultiDequeue n).2 := by
  simp only [Queue.MultiDequeue]
  split
  · exact h
  · split
    · exact h
    · split
      · exact h
      · exact Queue.dequeueLoop_inv _ q h

theorem Queue.drainTo_inv [Inhabited α] (q : Queue α) (h : QInv q) :
    QInv q.DrainTo.2 :=
  Queue.clear_inv_q q h

/-- Every public queue operation preserves well-formedness. -/
theorem applyQueueOp_inv [Inhabited α] (q : Queue α) (h : QInv q) (op : QueueOp α) :
    QInv (applyQueueOp q op) := by
  cases op <;> simp only [applyQueueOp] <;>
    first
      | exact h
      | exact Queue.enqueue_inv q h _
      | exact Queue.dequeue_inv q h
      | exact Queue.clear_inv_q q h
      | exact Queue.reverse_inv_q q h
      | exact Queue.multiEnqueue_inv q h _
      | exact Queue.multiDequeue_inv q h _

/-- Well-formedness holds after any sequence of public queue
operations. -/
theorem runQueueOps_inv [Inhabited α] :
    ∀ (ops : List (QueueOp α)) (q : Queue α), QInv q → QInv (runQueueOps q ops)
  | [], _, h => h
  | op :: ops, q, h =>
    runQueueOps_inv ops (applyQueueOp q op) (applyQueueOp_inv q h op)

theorem Queue.resize_reach_grow_q [Inhabited α] (q : Queue α)
    (he : q.size = q.items.length) (hr : ReachableFromDefault q.items.length) :
    ReachableFromDefault q.resize.items.length := by
  have hg := Queue.newCapacity_grow_q q he
  have hle : q.size ≤ q.newCapacity := by omega
  rw [Queue.resize_length_q q hle, hg]
  exact reachable_double hr

theorem Queue.shrinkCheck_reach_q [Inhabited α] (q1 : Queue α) (cond : Prop) [Decidable cond]
    (hcond : cond →
      0 < q1.size ∧ q1.size = q1.items.length / ShrinkFactor
        ∧ ShrinkFactor < q1.items.length)
    (hr : ReachableFromDefault q1.items.length) :
    ReachableFromDefault (if cond then q1.resize else q1).items.length := by
  split
  · next hc =>
    obtain ⟨hc1, hc2, hc3⟩ := hcond hc
    simp only [ShrinkFactor] at hc2 hc3
    have hlt : q1.items.length / 4 < q1.items.length :=
      Nat.div_lt_self (by omega) (by norm_num)
    have hne : q1.size ≠ q1.items.length := by omega
    have hnc := Queue.newCapacity_shrink_q q1 hne
    have hd2 : q1.items.length / 4 ≤ q1.items.length / 2 :=
      Nat.div_le_div_left (by norm_num) (by norm_num)
    rw [Queue.resize_length_q q1 (by omega), hnc]
    exact reachable_half hr (by omega)
  · exact hr

theorem Queue.enqueue_reach [Inhabited α] (q : Queue α)
    (hr : ReachableFromDefault q.items.length) (v : α) :
    ReachableFromDefault (q.Enqueue v).items.length := by
  simp only [Queue.Enqueue]
  by_cases he : q.size = q.items.length
  · rw [if_pos he]
    simp only [List.length_set]
    exact Queue.resize_reach_grow_q q he hr
  · rw [if_neg he]
    simpa only [List.length_set] using hr

theorem Queue.dequeue_reach [Inhabited α] (q : Queue α)
    (hr : ReachableFromDefault q.items.length) :
    ReachableFromDefault q.Dequeue.2.items.length := by
  by_cases hz : q.size = 0
  · simp only [Queue.Dequeue, if_pos hz]
    exact hr
  · simp only [Queue.Dequeue, if_neg hz]
    dsimp only
    apply Queue.shrinkCheck_reach_q
    · intro hc
      simpa only [List.length_set] using hc
    · simpa only [List.length_set] using hr

theorem Queue.foldl_enqueue_reach [Inhabited α] :
    ∀ (l : List α) (q : Queue α), ReachableFromDefault q.items.length →
      ReachableFromDefault (l.foldl Queue.Enqueue q).items.length
  | [], _, hr => hr
  | v :: l, q, hr => Queue.foldl_enqueue_reach l (q.Enqueue v) (Queue.enqueue_reach q hr v)

theorem Queue.dequeueLoop_reach [Inhabited α] :
    ∀ (k : Nat) (q : Queue α), ReachableFromDefault q.items.length →
      ReachableFromDefault (q.dequeueLoop k).2.items.length
  | 0, _, hr => hr
  | k + 1, q, hr => Queue.dequeueLoop_reach k q.Dequeue.2 (Queue.dequeue_reach q hr)

/-- Every public queue operation keeps the capacity in
`{4, 8, 16, ...}` once it is there. -/
theorem applyQueueOp_reach [Inhabited α] (q : Queue α)
    (hr : ReachableFromDefault q.items.length) (op : QueueOp α) :
    ReachableFromDefault (applyQueueOp q op).items.length := by
  cases op with
  | enqueue v => exact Queue.enqueue_reach q hr v
  | dequeue => exact Queue.dequeue_reach q hr
  | clear => exact (Queue.clear_length_q q) ▸ hr
  | reverse =>
    simp only [applyQueueOp, Queue.Reverse]
    split
    · exact hr
    · exact Queue.foldl_enqueue_reach _ _ ((Queue.clear_length_q q) ▸ hr)
  | multiEnqueue vs => exact Queue.foldl_enqueue_reach vs q hr
  | multiDequeue n =>
    simp only [applyQueueOp, Queue.MultiDequeue]
    split
    · exact hr
    · split
      · exact hr
      · split
        · exact hr
        · exact Queue.dequeueLoop_reach _ q hr
  | drainTo => exact (Queue.clear_length_q q) ▸ hr
  | front => exact hr
  | rear => exact hr
  | peek => exact hr
  | peekN n => exact hr
  | size => exact hr
  | isEmpty => exact hr
  | toSlice => exact hr
  | clone => exact hr
  | capacity => exact hr

/-- The capacity stays in `{4, 8, 16, ...}` along any sequence of
public queue operations. -/
theorem runQueueOps_reach [Inhabited α] :
    ∀ (ops : List (QueueOp α)) (q : Queue α),
      ReachableFromDefault q.items.length →
      ReachableFromDefault (runQueueOps q ops).items.length
  | [], _, hr => hr
  | op :: ops, q, hr =>
    runQueueOps_reach ops (applyQueueOp q op) (applyQueueOp_reach q hr op)

/-! ## Functional specification of `Dequeue` and `MultiDequeue` -/

/-- The state after the destructive part of `Dequeue` (slot cleared,
`front` advanced, `size` decremented) holds the tail of the original
logical sequence. -/
theorem Queue.popped_toSlice [Inhabited α] (q : Queue α) (h1 : q.size ≤ q.items.length)
    (h3 : q.front < q.items.length) :
    Queue.ToSlice { q with items := q.items.set q.front default,
                            front := (q.front + 1) % q.items.length,
                            size := q.size - 1 }
      = q.ToSlice.drop 1 := by
  apply List.ext_getElem
  · simp only [Queue.toSlice_length_q, List.length_drop]
  · intro i hL1 hL2
    have hi : i < q.size - 1 := by
      simpa only [Queue.toSlice_length_q] using hL1
    simp only [Queue.ToSlice, List.getElem_map, List.getElem_range, List.getElem_drop]
    simp only [List.length_set]
    rw [Nat.mod_add_mod]
    have hne : (q.front + 1 + i) % q.items.length ≠ q.front := by
      rw [Nat.add_assoc]
      exact add_mod_ne_self q.front (1 + i) _ h3 (by omega) (by omega)
    rw [getD_set_ne _ _ _ _ _ (Ne.symm hne)]
    have harg : q.front + 1 + i = q.front + (1 + i) := by omega
    rw [harg]

/-- The shrink check of `Dequeue` never changes the logical sequence
nor the size. -/
theorem Queue.shrinkCheck_toSlice [Inhabited α] (q1 : Queue α) (cond : Prop) [Decidable cond]
    (hcond : cond →
      0 < q1.size ∧ q1.size = q1.items.length / ShrinkFactor
        ∧ ShrinkFactor < q1.items.length) :
    (if cond then q1.resize else q1).ToSlice = q1.ToSlice := by
  split
  · next hc =>
    obtain ⟨hc1, hc2, hc3⟩ := hcond hc
    simp only [ShrinkFactor] at hc2 hc3
    have hlt : q1.items.length / 4 < q1.items.length :=
      Nat.div_lt_self (by omega) (by norm_num)
    have hne : q1.size ≠ q1.items.length := by omega
    have hnc := Queue.newCapacity_shrink_q q1 hne
    have hd2 : q1.items.length / 4 ≤ q1.items.length / 2 :=
      Nat.div_le_div_left (by norm_num) (by norm_num)
    exact Queue.toSlice_resize_q q1 (by omega)
  · rfl

/-- Full behaviour of one successful `Dequeue`: it returns the logical
head and leaves the logical tail, shrink or no shrink. -/
theorem Queue.dequeue_spec [Inhabited α] (q : Queue α) (h : QInv q) (hs : 0 < q.size) :
    q.Dequeue.1 = (q.ToSlice.getD 0 default, none)
      ∧ q.Dequeue.2.ToSlice = q.ToSlice.drop 1
      ∧ q.Dequeue.2.size = q.size - 1 := by
  obtain ⟨h1, h2, h3⟩ := h
  have hz : ¬ q.size = 0 := by omega
  have hval : q.ToSlice.getD 0 default = q.items.getD q.front default := by
    simp only [Queue.ToSlice]
    rw [getD_map_range _ _ _ _ hs, Nat.add_zero, Nat.mod_eq_of_lt h3]
  refine ⟨?_, ?_, ?_⟩
  · simp only [Queue.Dequeue, if_neg hz]
    rw [hval]
  · simp only [Queue.Dequeue, if_neg hz]
    dsimp only
    refine Eq.trans (Queue.shrinkCheck_toSlice _ _ ?_) (Queue.popped_toSlice q h1 h3)
    intro hc
    simpa only [List.length_set] using hc
  · simp only [Queue.Dequeue, if_neg hz]
    dsimp only
    split <;> rfl

/-- The dequeue loop of `MultiDequeue`: `k ≤ size` single dequeues
return the first `k` logical elements in order and leave the rest. -/
theorem Queue.dequeueLoop_spec [Inhabited α] :
    ∀ (k : Nat) (q : Queue α), QInv q → k ≤ q.size →
      (q.dequeueLoop k).1 = q.ToSlice.take k
        ∧ (q.dequeueLoop k).2.size = q.size - k
        ∧ (q.dequeueLoop k).2.ToSlice = q.ToSlice.drop k
  | 0, q, _, _ => ⟨by simp [Queue.dequeueLoop], by simp [Queue.dequeueLoop],
      by simp [Queue.dequeueLoop]⟩
  | k + 1, q, h, hk => by
    have hs : 0 < q.size := by omega
    obtain ⟨hv, hts, hsz⟩ := Queue.dequeue_spec q h hs
    have hinv2 := Queue.dequeue_inv q h
    have hk2 : k ≤ q.Dequeue.2.size := by omega
    obtain ⟨ih1, ih2, ih3⟩ := Queue.dequeueLoop_spec k q.Dequeue.2 hinv2 hk2
    have hnil : q.ToSlice ≠ [] := by
      apply List.ne_nil_of_length_pos
      rw [Queue.toSlice_length_q]
      omega
    obtain ⟨a, t, hcons⟩ := List.exists_cons_of_ne_nil hnil
    refine ⟨?_, ?_, ?_⟩
    · show q.Dequeue.1.1 :: (q.Dequeue.2.dequeueLoop k).1 = q.ToSlice.take (k + 1)
      rw [ih1, hts, hv, hcons]
      simp [List.take_succ_cons]
    · show (q.Dequeue.2.dequeueLoop k).2.size = q.size - (k + 1)
      rw [ih2, hsz]
      omega
    · show (q.Dequeue.2.dequeueLoop k).2.ToSlice = q.ToSlice.drop (k + 1)
      rw [ih3, hts, List.drop_drop, Nat.add_comm 1 k]

/-! ## Clone lemmas -/

/-- A linearized buffer (front at physical 0) reads back the copied elements. -/
theorem Deque.toSlice_linearized [Inhabited α] (xs : List α) (k r : Nat) :
    Deque.ToSlice { items := xs ++ List.replicate k default, front := 0, rear := r,
                    size := xs.length }
      = xs := by
  apply List.ext_getElem
  · simp [Deque.toSlice_length]
  · intro i hi1 hi2
    have hi : i < xs.length := by
      simpa [Deque.toSlice_length] using hi1
    simp only [Deque.ToSlice, List.getElem_map, List.getElem_range]
    have hlen : (xs ++ List.replicate k default).length = xs.length + k := by simp
    rw [Nat.zero_add, hlen, Nat.mod_eq_of_lt (by omega)]
    rw [List.getD_append _ _ _ _ hi]
    exact List.getD_eq_getElem xs default hi

/-- One `PushBack` on a partially filled linearized buffer appends at
the fill mark. -/
theorem Deque.pushBack_step [Inhabited α] (pre : List α) (c : Nat) (v : α)
    (h : pre.length < c) :
    Deque.PushBack { items := pre ++ List.replicate (c - pre.length) default, front := 0,
                     rear := pre.length % c, size := pre.length } v
      = { items := (pre ++ [v]) ++ List.replicate (c - (pre.length + 1)) default, front := 0,
          rear := (pre.length + 1) % c, size := pre.length + 1 } := by
  have hlen : (pre ++ List.replicate (c - pre.length) default).length = c := by
    simp
    omega
  simp only [Deque.PushBack]
  rw [if_neg (by simp only [hlen]; omega)]
  dsimp only
  rw [hlen, Nat.mod_eq_of_lt h]
  rw [List.set_append, if_neg (lt_irrefl pre.length), Nat.sub_self]
  rw [show c - pre.length = (c - (pre.length + 1)) + 1 from by omega, List.replicate_succ,
    List.set_cons_zero]
  simp [List.append_assoc]

/-- Folding `PushBack` over a list fills a fresh linearized buffer in
order. -/
theorem Deque.foldl_pushBack_fill [Inhabited α] (c : Nat) :
    ∀ (l pre : List α), pre.length + l.length ≤ c →
      l.foldl Deque.PushBack
        { items := pre ++ List.replicate (c - pre.length) default, front := 0,
          rear := pre.length % c, size := pre.length }
      = { items := (pre ++ l) ++ List.replicate (c - (pre.length + l.length)) default,
          front := 0, rear := (pre.length + l.length) % c, size := pre.length + l.length }
  | [], pre, _ => by simp
  | v :: l, pre, h => by
    have hvl : (v :: l).length = l.length + 1 := by simp
    have hlt : pre.length < c := by omega
    rw [List.foldl_cons, Deque.pushBack_step pre c v hlt]
    have ih := Deque.foldl_pushBack_fill c l (pre ++ [v]) (by simp; omega)
    simp only [List.length_append, List.length_singleton] at ih
    have hm : pre.length + 1 + l.length = pre.length + (v :: l).length := by omega
    rw [ih, hm]
    simp [List.append_assoc]

/-- `Clone` of a well-formed deque keeps the capacity and the logical
contents. -/
theorem Deque.clone_spec [Inhabited α] (dq : Deque α) (h1 : dq.size ≤ dq.items.length)
    (h2 : 1 ≤ dq.items.length) :
    dq.Clone.items.length = dq.items.length ∧ dq.Clone.ToSlice = dq.ToSlice := by
  have hinit : NewDequeWithCapacity α (dq.items.length : Int)
      = { items := List.replicate dq.items.length default, front := 0, rear := 0,
          size := 0 } := by
    simp only [NewDequeWithCapacity]
    rw [if_neg (by omega), Int.toNat_ofNat]
  have hclone : dq.Clone
      = dq.ToSlice.foldl Deque.PushBack (NewDequeWithCapacity α (dq.items.length : Int)) := by
    simp only [Deque.Clone, Deque.ToSlice]
    rw [List.foldl_map]
  have hfill := Deque.foldl_pushBack_fill dq.items.length dq.ToSlice []
    (by simp [Deque.toSlice_length]; omega)
  simp only [List.length_nil, List.nil_append, Nat.zero_add, Nat.sub_zero, Nat.zero_mod,
    Deque.toSlice_length] at hfill
  have hcl : dq.Clone
      = { items := dq.ToSlice ++ List.replicate (dq.items.length - dq.size) default,
          front := 0, rear := dq.size % dq.items.length, size := dq.size } := by
    rw [hclone, hinit, hfill]
  constructor
  · rw [hcl]
    simp only [List.length_append, List.length_replicate, Deque.toSlice_length]
    omega
  · rw [hcl]
    rw [show dq.size = dq.ToSlice.length from (Deque.toSlice_length dq).symm]
    exact Deque.toSlice_linearized _ _ _

/-- A linearized queue buffer reads back the copied elements. -/
theorem Queue.toSlice_linearized_q [Inhabited α] (xs : List α) (k r : Nat) :
    Queue.ToSlice { items := xs ++ List.replicate k default, front := 0, rear := r,
                    size := xs.length }
      = xs := by
  apply List.ext_getElem
  · simp [Queue.toSlice_length_q]
  · intro i hi1 hi2
    have hi : i < xs.length := by
      simpa [Queue.toSlice_length_q] using hi1
    simp only [Queue.ToSlice, List.getElem_map, List.getElem_range]
    have hlen : (xs ++ List.replicate k default).length = xs.length + k := by simp
    rw [Nat.zero_add, hlen, Nat.mod_eq_of_lt (by omega)]
    rw [List.getD_append _ _ _ _ hi]
    exact List.getD_eq_getElem xs default hi

/-- One `Enqueue` on a partially filled linearized buffer appends at
the fill mark. -/
theorem Queue.enqueue_step [Inhabited α] (pre : List α) (c : Nat) (v : α)
    (h : pre.length < c) :
    Queue.Enqueue { items := pre ++ List.replicate (c - pre.length) default, front := 0,
                    rear := pre.length % c, size := pre.length } v
      = { items := (pre ++ [v]) ++ List.replicate (c - (pre.length + 1)) default, front := 0,
          rear := (pre.length + 1) % c, size := pre.length + 1 } := by
  have hlen : (pre ++ List.replicate (c - pre.length) default).length = c := by
    simp
    omega
  simp only [Queue.Enqueue]
  rw [if_neg (by simp only [hlen]; omega)]
  dsimp only
  rw [hlen, Nat.mod_eq_of_lt h]
  rw [List.set_append, if_neg (lt_irrefl pre.length), Nat.sub_self]
  rw [show c - pre.length = (c - (pre.length + 1)) + 1 from by omega, List.replicate_succ,
    List.set_cons_zero]
  simp [List.append_assoc]

/-- Folding `Enqueue` over a list fills a fresh linearized buffer in
order. -/
theorem Queue.foldl_enqueue_fill [Inhabited α] (c : Nat) :
    ∀ (l pre : List α), pre.length + l.length ≤ c →
      l.foldl Queue.Enqueue
        { items := pre ++ List.replicate (c - pre.length) default, front := 0,
          rear := pre.length % c, size := pre.length }
      = { items := (pre ++ l) ++ List.replicate (c - (pre.length + l.length)) default,
          front := 0, rear := (pre.length + l.length) % c, size := pre.length + l.length }
  | [], pre, _ => by simp
  | v :: l, pre, h => by
    have hvl : (v :: l).length = l.length + 1 := by simp
    have hlt : pre.length < c := by omega
    rw [List.foldl_cons, Queue.enqueue_step pre c v hlt]
    have ih := Queue.foldl_enqueue_fill c l (pre ++ [v]) (by simp; omega)
    simp only [List.length_append, List.length_singleton] at ih
    have hm : pre.length + 1 + l.length = pre.length + (v :: l).length := by omega
    rw [ih, hm]
    simp [List.append_assoc]

/-- `Clone` of a well-formed queue keeps the capacity and the logical
contents. -/
theorem Queue.clone_spec_q [Inhabited α] (q : Queue α) (h1 : q.size ≤ q.items.length)
    (h2 : 1 ≤ q.items.length) :
    q.Clone.items.length = q.items.length ∧ q.Clone.ToSlice = q.ToSlice := by
  have hinit : NewQueueWithCapacity α (q.items.length : Int)
      = { items := List.replicate q.items.length default, front := 0, rear := 0,
          size := 0 } := by
    simp only [NewQueueWithCapacity]
    rw [if_neg (by omega), Int.toNat_ofNat]
  have hclone : q.Clone
      = q.ToSlice.foldl Queue.Enqueue (NewQueueWithCapacity α (q.items.length : Int)) := by
    simp only [Queue.Clone, Queue.ToSlice]
    rw [List.foldl_map]
  have hfill := Queue.foldl_enqueue_fill q.items.length q.ToSlice []
    (by simp [Queue.toSlice_length_q]; omega)
  simp only [List.length_nil, List.nil_append, Nat.zero_add, Nat.sub_zero, Nat.zero_mod,
    Queue.toSlice_length_q] at hfill
  have hcl : q.Clone
      = { items := q.ToSlice ++ List.replicate (q.items.length - q.size) default,
          front := 0, rear := q.size % q.items.length, size := q.size } := by
    rw [hclone, hinit, hfill]
  constructor
  · rw [hcl]
    simp only [List.length_append, List.length_replicate, Queue.toSlice_length_q]
    omega
  · rw [hcl]
    rw [show q.size = q.ToSlice.length from (Queue.toSlice_length_q q).symm]
    exact Queue.toSlice_linearized_q _ _ _

/-! ## Constructors establish the invariants -/

theorem NewDeque_inv [Inhabited α] : DqInv (NewDeque α) := by
  refine ⟨?_, ?_, ?_⟩ <;> simp [NewDeque, DequeInitialCapacity]

theorem NewDeque_reach [Inhabited α] : ReachableFromDefault (NewDeque α).items.length :=
  ⟨0, by simp [NewDeque, DequeInitialCapacity]⟩

theorem NewDequeWithCapacity_len [Inhabited α] (n : Int) :
    1 ≤ (NewDequeWithCapacity α n).items.length := by
  simp only [NewDequeWithCapacity, List.length_replicate]
  split
  · decide
  · omega

theorem NewDequeWithCapacity_inv [Inhabited α] (n : Int) :
    DqInv (NewDequeWithCapacity α n) :=
  ⟨Nat.zero_le _, NewDequeWithCapacity_len n, NewDequeWithCapacity_len n⟩

theorem FromSliceDeque_len [Inhabited α] (l : List α) :
    (FromSliceDeque l).items.length
      = if l.length < DequeInitialCapacity then DequeInitialCapacity else l.length := by
  simp only [FromSliceDeque, DequeInitialCapacity, List.length_append, List.length_replicate]
  split
  · omega
  · omega

theorem FromSliceDeque_inv [Inhabited α] (l : List α) : DqInv (FromSliceDeque l) := by
  have hl := FromSliceDeque_len l
  simp only [DequeInitialCapacity] at hl
  refine ⟨?_, ?_, ?_⟩
  · show l.length ≤ (FromSliceDeque l).items.length
    rw [hl]
    split <;> omega
  · rw [hl]
    split <;> omega
  · show 0 < (FromSliceDeque l).items.length
    rw [hl]
    split <;> omega

theorem NewQueue_inv [Inhabited α] : QInv (NewQueue α) := by
  refine ⟨?_, ?_, ?_⟩ <;> simp [NewQueue, DefaultInitialCapacity]

theorem NewQueue_reach [Inhabited α] : ReachableFromDefault (NewQueue α).items.length :=
  ⟨0, by simp [NewQueue, DefaultInitialCapacity]⟩

theorem NewQueueWithCapacity_len [Inhabited α] (n : Int) :
    1 ≤ (NewQueueWithCapacity α n).items.length := by
  simp only [NewQueueWithCapacity, List.length_replicate]
  split
  · decide
  · omega

theorem NewQueueWithCapacity_inv [Inhabited α] (n : Int) :
    QInv (NewQueueWithCapacity α n) :=
  ⟨Nat.zero_le _, NewQueueWithCapacity_len n, NewQueueWithCapacity_len n⟩

theorem FromSliceQueue_len [Inhabited α] (l : List α) :
    (FromSliceQueue l).items.length
      = if l.length < DefaultInitialCapacity then DefaultInitialCapacity else l.length := by
  simp only [FromSliceQueue, DefaultInitialCapacity, List.length_append, List.length_replicate]
  split
  · omega
  · omega

theorem FromSliceQueue_inv [Inhabited α] (l : List α) : QInv (FromSliceQueue l) := by
  have hl := FromSliceQueue_len l
  simp only [DefaultInitialCapacity] at hl
  refine ⟨?_, ?_, ?_⟩
  · show l.length ≤ (FromSliceQueue l).items.length
    rw [hl]
    split <;> omega
  · rw [hl]
    split <;> omega
  · show 0 < (FromSliceQueue l).items.length
    rw [hl]
    split <;> omega

/-! ## Stack lemma -/

/-- The index loop of `Stack.MultiPop` reads the top `n` elements in
top-first order, i.e. the reversal of the last `n` elements. -/
theorem stack_top_segment [Inhabited α] (l : List α) (n : Nat) (h : n ≤ l.length) :
    (List.range n).map (fun i => l.getD (l.length - n + n - 1 - i) default)
      = (l.drop (l.length - n)).reverse := by
  have hidx : ∀ i : Nat, l.length - n + n - 1 - i = l.length - 1 - i := by
    intro i
    omega
  simp only [hidx]
  rw [List.reverse_drop, show l.length - (l.length - n) = n from by omega]
  rw [← map_range_getD_take l.reverse default n (by simpa using h)]
  apply List.map_congr_left
  intro i hi
  rw [List.mem_range] at hi
  by_cases hn : l.length = 0
  · omega
  · rw [List.getD_eq_getElem l default (by omega),
      List.getD_eq_getElem l.reverse default (by simp; omega)]
    rw [List.getElem_reverse]

/-! ## Claim theorems -/

/-- Claim C1 (code bug): the spec requires
`rear == (front + size) mod capacity` after every public operation, and
the `rear` field is documented in the source as the index where the
next rear element is inserted.  `Rotate` moves `front` but never
updates `rear`: after `PushBack 1, 2, 3, 4` and `Rotate 1` the stored
`rear` is 0 while `(front + size) mod capacity = 3`, and the stale
`rear` makes `PopBack` return 4 (the rotated front element) instead of
the logical back element 3 of `[4, 1, 2, 3]`. -/
theorem c1_rotate_breaks_rear_invariant :
    (dqFour.Rotate 1).rear = 0
      ∧ ((dqFour.Rotate 1).front + (dqFour.Rotate 1).size) % (dqFour.Rotate 1).Capacity = 3
      ∧ (dqFour.Rotate 1).rear
          ≠ ((dqFour.Rotate 1).front + (dqFour.Rotate 1).size) % (dqFour.Rotate 1).Capacity
      ∧ (dqFour.Rotate 1).ToSlice = [4, 1, 2, 3]
      ∧ (dqFour.Rotate 1).PopBack.1.1 = 4 := by
  decide

/-- Claim C2 (code bug): `Rotate` only shifts `front`, which is a
correct right rotation only when the buffer is full.  On the deque
built by `NewDeque` and `PushBack 1, ..., 5` (five elements in a
capacity-8 buffer), `Rotate 2` drags two zero-valued free slots into
the logical window: `ToSlice` becomes `[0, 0, 1, 2, 3]` instead of the
right rotation `[4, 5, 1, 2, 3]` promised by the claim. -/
theorem c2_rotate_corrupts_nonfull_deque :
    dqFive.Size = 5 ∧ dqFive.Capacity = 8
      ∧ dqFive.ToSlice = [1, 2, 3, 4, 5]
      ∧ (dqFive.Rotate 2).ToSlice = [0, 0, 1, 2, 3]
      ∧ (dqFive.Rotate 2).ToSlice ≠ [4, 5, 1, 2, 3] := by
  decide

/-- Claim C9 (code bug): for the same reason as C2, `Rotate k` followed
by `Rotate (-k)` does not restore a non-full deque: on five elements in
a capacity-8 buffer, `Rotate 2` then `Rotate (-2)` yields
`[4, 5, 0, 0, 0]`, not the original `[1, 2, 3, 4, 5]`. -/
theorem c9_rotate_inverse_fails_nonfull :
    ((dqFive.Rotate 2).Rotate (-2)).ToSlice = [4, 5, 0, 0, 0]
      ∧ ((dqFive.Rotate 2).Rotate (-2)).ToSlice ≠ dqFive.ToSlice := by
  decide

/-- Claim C3, counterexample: `NewQueueWithCapacity(2)` and
`NewDequeWithCapacity(2)` keep the requested capacity 2; the claimed
`max(n, 4) = 4` is wrong for `1 <= n < 4`. -/
theorem c3_counterexample :
    (NewQueueWithCapacity Int 2).Capacity = 2
      ∧ (NewQueueWithCapacity Int 2).Capacity ≠ max 2 4
      ∧ (NewDequeWithCapacity Int 2).Capacity = 2
      ∧ (NewDequeWithCapacity Int 2).Capacity ≠ max 2 4 := by
  decide

/-- Claim C3 (amended): constructing with a requested capacity `n`
yields capacity `n` whenever `n >= 1` (even for `n < 4`), and capacity
4 when `n < 1`; the new container has count 0 and front 0. -/
theorem c3_with_capacity_constructors (n : Int) :
    (NewQueueWithCapacity Int n).Capacity = (if n < 1 then 4 else n.toNat)
      ∧ (NewQueueWithCapacity Int n).Size = 0
      ∧ (NewQueueWithCapacity Int n).front = 0
      ∧ (NewDequeWithCapacity Int n).Capacity = (if n < 1 then 4 else n.toNat)
      ∧ (NewDequeWithCapacity Int n).Size = 0
      ∧ (NewDequeWithCapacity Int n).front = 0 := by
  refine ⟨?_, rfl, rfl, ?_, rfl, rfl⟩ <;>
    · simp only [Queue.Capacity, Deque.Capacity, NewQueueWithCapacity, NewDequeWithCapacity,
        List.length_replicate]
      split <;> simp [DequeInitialCapacity]

/-- Claim C8: starting from an empty capacity-4 deque, the pushes
`PushBack 1`, `PushBack 2`, `PushFront 0`, `PushFront (-1)` produce
logical order `[-1, 0, 1, 2]` with count 4 and capacity 4, and one
further `PushBack 3` grows the capacity to 8 and preserves the order
as `[-1, 0, 1, 2, 3]`. -/
theorem c8_wraparound_growth_scenario :
    (((((NewDequeWithCapacity Int 4).PushBack 1).PushBack 2).PushFront 0).PushFront
        (-1)).ToSlice = [-1, 0, 1, 2]
      ∧ (((((NewDequeWithCapacity Int 4).PushBack 1).PushBack 2).PushFront 0).PushFront
          (-1)).Size = 4
      ∧ (((((NewDequeWithCapacity Int 4).PushBack 1).PushBack 2).PushFront 0).PushFront
          (-1)).Capacity = 4
      ∧ ((((((NewDequeWithCapacity Int 4).PushBack 1).PushBack 2).PushFront 0).PushFront
          (-1)).PushBack 3).Capacity = 8
      ∧ ((((((NewDequeWithCapacity Int 4).PushBack 1).PushBack 2).PushFront 0).PushFront
          (-1)).PushBack 3).ToSlice = [-1, 0, 1, 2, 3] := by
  decide

/-- Claim C4, counterexample: `NewQueueWithCapacity(10)` has capacity
10, which is not 0 mod 4 and not of the form `4 * 2 ^ k`, so capacity
is not always in `{4, 8, 16, ...}`. -/
theorem c4_counterexample :
    (NewQueueWithCapacity Int 10).Capacity = 10
      ∧ (NewQueueWithCapacity Int 10).Capacity % 4 = 2
      ∧ ¬ ReachableFromDefault (NewQueueWithCapacity Int 10).Capacity := by
  refine ⟨by decide, by decide, ?_⟩
  intro hreach
  obtain ⟨k, hk⟩ := hreach
  rw [show (NewQueueWithCapacity Int 10).Capacity = 10 from by decide] at hk
  match k, hk with
  | 0, hk => norm_num at hk
  | 1, hk => norm_num at hk
  | (k + 2), hk =>
    have h1 : 4 ≤ 2 ^ (k + 2) := by
      calc 4 = 2 ^ 2 := by norm_num
      _ ≤ 2 ^ (k + 2) := Nat.pow_le_pow_right (by norm_num) (by omega)
    omega

/-- Claim C4 (amended): along every sequence of public operations from
any constructor, `0 <= count <= capacity` and `capacity >= 1` hold
(`count` and the indices are non-negative by the `Nat` embedding), and
starting from the default constructor (initial capacity 4) the
capacity stays in `{4, 8, 16, ...}`, every change being a doubling or
a halving.  With-capacity and from-slice constructors may start at any
positive capacity, which need not be a power of two (see the
counterexample). -/
theorem c4_invariant_and_capacity_evolution :
    (∀ (ops : List (DequeOp Int)) (n : Int) (l : List Int),
        DqInv (runDequeOps (NewDeque Int) ops)
          ∧ DqInv (runDequeOps (NewDequeWithCapacity Int n) ops)
          ∧ DqInv (runDequeOps (FromSliceDeque l) ops)
          ∧ ReachableFromDefault (runDequeOps (NewDeque Int) ops).Capacity)
      ∧ (∀ (ops : List (QueueOp Int)) (n : Int) (l : List Int),
          QInv (runQueueOps (NewQueue Int) ops)
            ∧ QInv (runQueueOps (NewQueueWithCapacity Int n) ops)
            ∧ QInv (runQueueOps (FromSliceQueue l) ops)
            ∧ ReachableFromDefault (runQueueOps (NewQueue Int) ops).Capacity) := by
  constructor
  · intro ops n l
    exact ⟨runDequeOps_inv ops _ NewDeque_inv,
      runDequeOps_inv ops _ (NewDequeWithCapacity_inv n),
      runDequeOps_inv ops _ (FromSliceDeque_inv l),
      runDequeOps_reach ops _ NewDeque_reach⟩
  · intro ops n l
    exact ⟨runQueueOps_inv ops _ NewQueue_inv,
      runQueueOps_inv ops _ (NewQueueWithCapacity_inv n),
      runQueueOps_inv ops _ (FromSliceQueue_inv l),
      runQueueOps_reach ops _ NewQueue_reach⟩

/-- Claim C5: whether triggered as a growth (full buffer before an
insertion) or a shrink (after a removal, `count = cap/4`, `cap > 4`),
`resize` leaves `toOrderedSequence` unchanged, sets `front = 0`, and
re-linearizes the `count` elements starting at physical index 0. -/
theorem c5_resize_transparent (dq : Deque Int) (q : Queue Int)
    (hdq : DqInv dq) (hq : QInv q)
    (hdc : dq.size = dq.items.length
      ∨ (0 < dq.size ∧ dq.size = dq.items.length / DequeShrinkFactor
          ∧ DequeShrinkFactor < dq.items.length))
    (hqc : q.size = q.items.length
      ∨ (0 < q.size ∧ q.size = q.items.length / ShrinkFactor
          ∧ ShrinkFactor < q.items.length)) :
    (dq.resize.ToSlice = dq.ToSlice ∧ dq.resize.front = 0
        ∧ dq.resize.items.take dq.size = dq.ToSlice)
      ∧ (q.resize.ToSlice = q.ToSlice ∧ q.resize.front = 0
          ∧ q.resize.items.take q.size = q.ToSlice) := by
  have hled : dq.size ≤ dq.newCapacity := by
    rcases hdc with he | ⟨hs, he, hc⟩
    · rw [Deque.newCapacity_grow dq he]
      omega
    · simp only [DequeShrinkFactor] at he hc
      have hlt : dq.items.length / 4 < dq.items.length :=
        Nat.div_lt_self (by omega) (by norm_num)
      rw [Deque.newCapacity_shrink dq (by omega)]
      have hd : dq.items.length / 4 ≤ dq.items.length / 2 :=
        Nat.div_le_div_left (by norm_num) (by norm_num)
      omega
  have hleq : q.size ≤ q.newCapacity := by
    rcases hqc with he | ⟨hs, he, hc⟩
    · rw [Queue.newCapacity_grow_q q he]
      omega
    · simp only [ShrinkFactor] at he hc
      have hlt : q.items.length / 4 < q.items.length :=
        Nat.div_lt_self (by omega) (by norm_num)
      rw [Queue.newCapacity_shrink_q q (by omega)]
      have hd : q.items.length / 4 ≤ q.items.length / 2 :=
        Nat.div_le_div_left (by norm_num) (by norm_num)
      omega
  refine ⟨⟨Deque.toSlice_resize dq hled, rfl, ?_⟩,
    ⟨Queue.toSlice_resize_q q hleq, rfl, ?_⟩⟩
  · rw [Deque.resize_items dq hled,
      show dq.size = dq.ToSlice.length from (Deque.toSlice_length dq).symm]
    exact List.take_left _ _
  · rw [Queue.resize_items_q q hleq,
      show q.size = q.ToSlice.length from (Queue.toSlice_length_q q).symm]
    exact List.take_left _ _

/-- Witness for C5: a saturated deque (growth path) and a quarter-full
capacity-8 queue (shrink path). -/
theorem c5_resize_transparent_witness :
    (DqInv (FromSliceDeque [1, 2, 3, 4] : Deque Int) ∧ QInv qShrink)
      ∧ ((FromSliceDeque [1, 2, 3, 4] : Deque Int).resize.ToSlice
            = (FromSliceDeque [1, 2, 3, 4] : Deque Int).ToSlice
          ∧ (FromSliceDeque [1, 2, 3, 4] : Deque Int).resize.front = 0
          ∧ (FromSliceDeque [1, 2, 3, 4] : Deque Int).resize.items.take
              (FromSliceDeque [1, 2, 3, 4] : Deque Int).size
            = (FromSliceDeque [1, 2, 3, 4] : Deque Int).ToSlice)
      ∧ (qShrink.resize.ToSlice = qShrink.ToSlice ∧ qShrink.resize.front = 0
          ∧ qShrink.resize.items.take qShrink.size = qShrink.ToSlice) :=
  ⟨⟨by decide, by decide⟩,
    (c5_resize_transparent (FromSliceDeque [1, 2, 3, 4]) qShrink
      (by decide) (by decide) (Or.inl (by decide)) (Or.inr (by decide))).1,
    (c5_resize_transparent (FromSliceDeque [1, 2, 3, 4]) qShrink
      (by decide) (by decide) (Or.inl (by decide)) (Or.inr (by decide))).2⟩

/-- Claim C6: on an empty container, every reading or removing
operation (and each alias) returns the zero value together with an
"is empty" error and leaves the state completely unchanged. -/
theorem c6_empty_container_errors {β : Type} [Inhabited β] (dq : Deque β) (q : Queue β)
    (hdq : dq.size = 0) (hq : q.size = 0) :
    dq.PopFront = ((default, some "deque is empty"), dq)
      ∧ dq.PopBack = ((default, some "deque is empty"), dq)
      ∧ dq.Front = (default, some "deque is empty")
      ∧ dq.Back = (default, some "deque is empty")
      ∧ dq.PeekFront = (default, some "deque is empty")
      ∧ dq.PeekBack = (default, some "deque is empty")
      ∧ dq.Dequeue = ((default, some "deque is empty"), dq)
      ∧ dq.Pop = ((default, some "deque is empty"), dq)
      ∧ q.Dequeue = ((default, some "queue is empty"), q)
      ∧ q.Front = (default, some "queue is empty")
      ∧ q.Rear = (default, some "queue is empty")
      ∧ q.Peek = (default, some "queue is empty") := by
  refine ⟨?_, ?_, ?_, ?_, ?_, ?_, ?_, ?_, ?_, ?_, ?_, ?_⟩ <;>
    simp [Deque.PopFront, Deque.PopBack, Deque.Front, Deque.Back, Deque.PeekFront,
      Deque.PeekBack, Deque.Dequeue, Deque.Pop, Queue.Dequeue, Queue.Front, Queue.Rear,
      Queue.Peek, hdq, hq]

/-- Witness for C6: freshly constructed empty containers. -/
theorem c6_empty_container_errors_witness :
    (NewDeque Int).size = 0 ∧ (NewQueue Int).size = 0
      ∧ (NewDeque Int).PopFront = ((default, some "deque is empty"), NewDeque Int)
      ∧ (NewDeque Int).PopBack = ((default, some "deque is empty"), NewDeque Int)
      ∧ (NewQueue Int).Dequeue = ((default, some "queue is empty"), NewQueue Int)
      ∧ (NewQueue Int).Front = (default, some "queue is empty") :=
  ⟨rfl, rfl,
    (c6_empty_container_errors (NewDeque Int) (NewQueue Int) rfl rfl).1,
    (c6_empty_container_errors (NewDeque Int) (NewQueue Int) rfl rfl).2.1,
    (c6_empty_container_errors (NewDeque Int) (NewQueue Int) rfl rfl).2.2.2.2.2.2.2.2.1,
    (c6_empty_container_errors (NewDeque Int) (NewQueue Int) rfl rfl).2.2.2.2.2.2.2.2.2.1⟩

/-- Claim C7: `MultiDequeue`/`MultiPop` fail exactly when `n < 0` or
`n > count`; a failing call leaves the container completely untouched;
a successful call removes exactly `n` elements and returns them
(front-first for the queue, top-first for the stack). -/
theorem c7_multiPop_bounds {β : Type} [Inhabited β] (q : Queue β) (s : Stack β) (n : Int)
    (hq : QInv q) :
    (((n < 0 ∨ (q.size : Int) < n) →
        (q.MultiDequeue n).2 = q ∧ ∃ e, (q.MultiDequeue n).1 = Except.error e)
      ∧ (0 ≤ n → n ≤ (q.size : Int) →
          (q.MultiDequeue n).1 = Except.ok (q.ToSlice.take n.toNat)
            ∧ (q.MultiDequeue n).2.size = q.size - n.toNat))
      ∧ (((n < 0 ∨ (s.items.length : Int) < n) →
          (s.MultiPop n).2 = s ∧ ∃ e, (s.MultiPop n).1 = Except.error e)
        ∧ (0 ≤ n → n ≤ (s.items.length : Int) →
            (s.MultiPop n).1
                = Except.ok ((s.items.drop (s.items.length - n.toNat)).reverse)
              ∧ (s.MultiPop n).2.items = s.items.take (s.items.length - n.toNat))) := by
  refine ⟨⟨?_, ?_⟩, ?_, ?_⟩
  · intro hbad
    by_cases hn : n < 0
    · simp [Queue.MultiDequeue, hn]
    · have hgt : (q.size : Int) < n := by
        rcases hbad with hbad | hbad
        · omega
        · exact hbad
      simp [Queue.MultiDequeue, hn, hgt]
  · intro h0 hle
    have hn : ¬ n < 0 := by omega
    have hgt : ¬ (q.size : Int) < n := by omega
    by_cases hz : n = 0
    · subst hz
      simp [Queue.MultiDequeue, hgt]
    · have hloop := Queue.dequeueLoop_spec n.toNat q hq (by omega)
      simp only [Queue.MultiDequeue, if_neg hn, if_neg hgt, if_neg hz]
      exact ⟨by rw [hloop.1], by rw [hloop.2.1]⟩
  · intro hbad
    by_cases hn : n < 0
    · simp [Stack.MultiPop, hn]
    · have hgt : (s.items.length : Int) < n := by
        rcases hbad with hbad | hbad
        · omega
        · exact hbad
      simp [Stack.MultiPop, hn, hgt]
  · intro h0 hle
    have hn : ¬ n < 0 := by omega
    have hgt : ¬ (s.items.length : Int) < n := by omega
    by_cases hz : n = 0
    · subst hz
      simp [Stack.MultiPop, hgt, List.drop_length]
    · simp only [Stack.MultiPop, if_neg hn, if_neg hgt, if_neg hz]
      refine ⟨?_, ?_⟩
      · rw [stack_top_segment s.items n.toNat (by omega)]
      · trivial

/-- Witness for C7: five-element queue and stack, `n = 2` (success) and
`n = 7` (failure leaving the container untouched). -/
theorem c7_multiPop_bounds_witness :
    QInv (FromSliceQueue [1, 2, 3, 4, 5] : Queue Int)
      ∧ ((FromSliceQueue [1, 2, 3, 4, 5] : Queue Int).MultiDequeue 2).1
          = Except.ok ((FromSliceQueue [1, 2, 3, 4, 5] : Queue Int).ToSlice.take
              (2 : Int).toNat)
      ∧ ((FromSliceQueue [1, 2, 3, 4, 5] : Queue Int).MultiDequeue 7).2
          = (FromSliceQueue [1, 2, 3, 4, 5] : Queue Int)
      ∧ ((FromSliceStack [1, 2, 3, 4, 5] : Stack Int).MultiPop 2).1
          = Except.ok (((FromSliceStack [1, 2, 3, 4, 5] : Stack Int).items.drop
              ((FromSliceStack [1, 2, 3, 4, 5] : Stack Int).items.length
                - (2 : Int).toNat)).reverse)
      ∧ ((FromSliceStack [1, 2, 3, 4, 5] : Stack Int).MultiPop (-1)).2
          = (FromSliceStack [1, 2, 3, 4, 5] : Stack Int) :=
  ⟨by decide,
    ((c7_multiPop_bounds (FromSliceQueue [1, 2, 3, 4, 5]) (FromSliceStack [1, 2, 3, 4, 5])
        2 (by decide)).1.2 (by decide) (by decide)).1,
    ((c7_multiPop_bounds (FromSliceQueue [1, 2, 3, 4, 5]) (FromSliceStack [1, 2, 3, 4, 5])
        7 (by decide)).1.1 (Or.inr (by decide))).1,
    ((c7_multiPop_bounds (FromSliceQueue [1, 2, 3, 4, 5]) (FromSliceStack [1, 2, 3, 4, 5])
        2 (by decide)).2.2 (by decide) (by decide)).1,
    ((c7_multiPop_bounds (FromSliceQueue [1, 2, 3, 4, 5]) (FromSliceStack [1, 2, 3, 4, 5])
        (-1) (by decide)).2.1 (Or.inl (by decide))).1⟩

/-- Claim C10: `Clone` preserves the capacity and the logical contents.
The buffer of the clone is freshly allocated by the constructor inside
`Clone` (the source never stores a reference to the original buffer),
so in this pure embedding mutation independence is automatic: every
operation on the clone produces a new value and the original is a
distinct unchanged value. -/
theorem c10_clone_capacity_and_contents {β : Type} [Inhabited β] (dq : Deque β) (q : Queue β)
    (hdq : DqInv dq) (hq : QInv q) :
    dq.Clone.Capacity = dq.Capacity ∧ dq.Clone.ToSlice = dq.ToSlice
      ∧ q.Clone.Capacity = q.Capacity ∧ q.Clone.ToSlice = q.ToSlice := by
  obtain ⟨d1, d2, -⟩ := hdq
  obtain ⟨q1, q2, -⟩ := hq
  obtain ⟨hc1, hc2⟩ := Deque.clone_spec dq d1 d2
  obtain ⟨hc3, hc4⟩ := Queue.clone_spec_q q q1 q2
  exact ⟨hc1, hc2, hc3, hc4⟩

/-- Witness for C10. -/
theorem c10_clone_capacity_and_contents_witness :
    DqInv (FromSliceDeque [1, 2, 3] : Deque Int)
      ∧ QInv (FromSliceQueue [7, 8] : Queue Int)
      ∧ (FromSliceDeque [1, 2, 3] : Deque Int).Clone.Capacity
          = (FromSliceDeque [1, 2, 3] : Deque Int).Capacity
      ∧ (FromSliceDeque [1, 2, 3] : Deque Int).Clone.ToSlice
          = (FromSliceDeque [1, 2, 3] : Deque Int).ToSlice
      ∧ (FromSliceQueue [7, 8] : Queue Int).Clone.Capacity
          = (FromSliceQueue [7, 8] : Queue Int).Capacity
      ∧ (FromSliceQueue [7, 8] : Queue Int).Clone.ToSlice
          = (FromSliceQueue [7, 8] : Queue Int).ToSlice :=
  ⟨by decide, by decide,
    (c10_clone_capacity_and_contents (FromSliceDeque [1, 2, 3]) (FromSliceQueue [7, 8])
      (by decide) (by decide)).1,
    (c10_clone_capacity_and_contents (FromSliceDeque [1, 2, 3]) (FromSliceQueue [7, 8])
      (by decide) (by decide)).2.1,
    (c10_clone_capacity_and_contents (FromSliceDeque [1, 2, 3]) (FromSliceQueue [7, 8])
      (by decide) (by decide)).2.2.1,
    (c10_clone_capacity_and_contents (FromSliceDeque [1, 2, 3]) (FromSliceQueue [7, 8])
      (by decide) (by decide)).2.2.2⟩

end GoToolkit
